import Mathlib

/-!
# Verification of the amazon-fba-image-toolkit scripts

This file gives a shallow embedding, in Lean 4, of the pure computational
core of the repository's three Python scripts:

* `download_images_by_product.py` — slug generation (`short_title_slug`),
  unique output-folder probing (`ensure_unique_folder`), per-line row
  processing (`process_line`), and the fixed-canvas image normalisation
  (`to_exact_canvas_webp`, modelled at the level of pixel dimensions);
* `export_product_metadata.py` — price normalisation (`normalise_price`),
  text trimming (`trim_to_length`), keyword extraction (`build_keywords`),
  gender detection (`detect_gender`), description composition, metadata row
  construction (`build_rows`) and the sheet push (`push_to_sheet`, modelled
  over an explicit worksheet-map state);
* `sheet_reader.py` — not needed by any claim below.

Modelling conventions:
* Python strings are Lean `String`s; most character-level work happens on
  `List Char`.  Character classes (`\w`, `\s`, `str.lower`, …) are modelled
  with Lean's `Char` predicates, which coincide with CPython's exactly on
  the ASCII domain `asciiModelChar`; slug theorems whose truth depends on
  the character classes quantify only over that domain (CPython's `\w`
  with `re.UNICODE` also keeps non-ASCII word characters, e.g.
  `short_title_slug("Über") = "über"`).
* The filesystem seen by `ensure_unique_folder` is an abstract predicate
  `fs : String → Bool` ("this path exists"); the unbounded `while` loop is
  modelled with explicit fuel, `none` standing for non-termination.
* PIL's float arithmetic in `Image.thumbnail` is modelled exactly over `ℚ`
  (the rounding function `round_aspect` is transcribed from PIL's source);
  image contents are irrelevant to the claims, so an image is modelled by
  its pixel dimensions.
* Spreadsheet cells can hold strings or numbers, modelled by `PyVal`;
  Python float formatting is modelled over `ℚ`.
-/

namespace FBA

/-! ## Generic character and list-of-character helpers -/

/-- The apostrophe character (used in string/keyword tables). -/
def apos : Char := Char.ofNat 39

/-- One-character string holding an apostrophe. -/
def sApos : String := String.singleton apos

/-- The ASCII fragment of Python `\w`: letters, digits, underscore.
CPython's `\w` with `re.UNICODE` additionally matches every Unicode word
character (so `short_title_slug("Über") = "über"` in CPython); theorems
whose truth depends on this class therefore quantify only over titles in
the exact-model domain `asciiModelChar`, where this fragment agrees with
CPython character for character. -/
def isWordChar (c : Char) : Bool := c.isAlphanum || c = '_'

/-- Characters on which the model's character classes coincide exactly
with CPython's (`\w`, `\s`, `str.strip`, `str.lower`): code points below
128, excluding the control whitespace characters U+000B, U+000C and
U+001C–U+001F, which CPython's `str.strip`/`\s` treat as whitespace but
`Char.isWhitespace` does not. -/
def asciiModelChar (c : Char) : Bool :=
  c.toNat < 128 && !(c.toNat = 11 || c.toNat = 12 || (28 ≤ c.toNat && c.toNat ≤ 31))

/-- Strip characters satisfying `p` from both ends (Python `str.strip`). -/
def stripChars (p : Char → Bool) (l : List Char) : List Char :=
  ((l.dropWhile p).reverse.dropWhile p).reverse

/-- Python `str.strip()` (whitespace on both ends). -/
def pyStrip (l : List Char) : List Char := stripChars Char.isWhitespace l

/-- Strip characters satisfying `p` from the right end (Python `str.rstrip`). -/
def rstripChars (p : Char → Bool) (l : List Char) : List Char :=
  (l.reverse.dropWhile p).reverse

/-- Python `s.split(sep)` for a one-character separator `sep`:
every occurrence splits, empty pieces are kept. -/
def splitOnChar (sep : Char) : List Char → List (List Char)
  | [] => [[]]
  | c :: rest =>
    match splitOnChar sep rest with
    | w :: ws => if c = sep then [] :: w :: ws else (c :: w) :: ws
    | [] => [[]]

/-- Maximal runs of characters satisfying `p`; characters failing `p`
separate runs and are discarded.  `runs (fun c => !c.isWhitespace)` is
Python `str.split()`, `runs isTokChar` is `re.findall` of a character
class. -/
def runsAux (p : Char → Bool) (acc : List Char) : List Char → List (List Char)
  | [] => if acc = [] then [] else [acc.reverse]
  | c :: rest =>
    if p c then runsAux p (c :: acc) rest
    else if acc = [] then runsAux p [] rest
    else acc.reverse :: runsAux p [] rest

/-- See `runsAux`. -/
def runs (p : Char → Bool) (l : List Char) : List (List Char) := runsAux p [] l

/-- Python `str.split()` with no argument: split on whitespace runs,
dropping empty pieces. -/
def splitWS (l : List Char) : List (List Char) := runs (fun c => !c.isWhitespace) l

/-- Python `sep.join(pieces)`. -/
def joinSep (sep : List Char) : List (List Char) → List Char
  | [] => []
  | [w] => w
  | w :: ws => w ++ sep ++ joinSep sep ws

/-- Python `str.lower()` (ASCII model). -/
def lowerStr (s : String) : String := ⟨s.toList.map Char.toLower⟩

/-! ## `download_images_by_product.short_title_slug` -/

/-- `re.sub(r"\s+", " ", ·)`: collapse every whitespace run to a single
space.  The boolean argument records whether the previous character was
whitespace. -/
def collapseWSAux : Bool → List Char → List Char
  | _, [] => []
  | prevSpace, c :: rest =>
    if c.isWhitespace then
      if prevSpace then collapseWSAux true rest
      else ' ' :: collapseWSAux true rest
    else c :: collapseWSAux false rest

/-- `re.sub(r"-{2,}", "-", ·)`: collapse every run of two or more dashes to
a single dash.  The boolean argument records whether the previous character
was a dash. -/
def collapseDashAux : Bool → List Char → List Char
  | _, [] => []
  | prevDash, c :: rest =>
    if c = '-' then
      if prevDash then collapseDashAux true rest
      else '-' :: collapseDashAux true rest
    else c :: collapseDashAux false rest

/-- First stage of `short_title_slug`: strip, remove characters that are
not word characters, whitespace or dashes (`re.sub(r"[^\w\s-]", "", ·)`),
collapse whitespace runs, strip again, and take the first `max_words`
space-separated words. -/
def slug_words (max_words : ℕ) (title : String) : List (List Char) :=
  let t := pyStrip title.toList
  let t := t.filter (fun c => isWordChar c || c.isWhitespace || c = '-')
  let t := pyStrip (collapseWSAux false t)
  (splitOnChar ' ' t).take max_words

/-- Second stage of `short_title_slug`: join the words with dashes,
lowercase, collapse multiple dashes, strip dashes from both ends, truncate
to `max_len` characters and trim a trailing dash. -/
def slug_core (max_words max_len : ℕ) (title : String) : List Char :=
  rstripChars (fun c => c = '-')
    ((stripChars (fun c => c = '-')
      (collapseDashAux false
        ((joinSep ['-'] (slug_words max_words title)).map Char.toLower))).take max_len)

/-- `short_title_slug` with explicit `max_words` and `max_len` parameters,
transcribed step by step from the Python source; the empty result falls
back to `"product"`. -/
def short_title_slug_p (max_words max_len : ℕ) (title : String) : String :=
  if slug_core max_words max_len title = [] then "product"
  else ⟨slug_core max_words max_len title⟩

/-- `short_title_slug` at its default parameters (`max_words=6`,
`max_len=48`). -/
def short_title_slug (title : String) : String := short_title_slug_p 6 48 title

/-! ## `download_images_by_product.ensure_unique_folder` -/

/-- The folder path probed at `attempt` number `k`:
`root/base` for `k = 1`, `root/base-k` afterwards. -/
def candidate (root base : String) (k : ℕ) : String :=
  if k = 1 then root ++ "/" ++ base else root ++ "/" ++ base ++ "-" ++ Nat.repr k

/-- The `while candidate.exists()` probe loop of `ensure_unique_folder`,
with fuel; `none` models non-termination (every existing-path set arising
from a real filesystem is finite, so enough fuel always exists). -/
def ensureAux (fs : String → Bool) (root base : String) : ℕ → ℕ → Option String
  | 0, _ => none
  | fuel + 1, attempt =>
    if fs (candidate root base attempt) then ensureAux fs root base fuel (attempt + 1)
    else some (candidate root base attempt)

/-- `ensure_unique_folder(root, base_slug)` over an abstract filesystem
`fs` (the set of paths that exist at call time). -/
def ensure_unique_folder (fs : String → Bool) (fuel : ℕ) (root base : String) :
    Option String :=
  ensureAux fs root base fuel 1

/-! ## `download_images_by_product.to_exact_canvas_webp`

PIL's `Image.thumbnail(size)` shrinks an image in place so that it fits
within `size`, preserving the aspect ratio and doing nothing when the image
already fits.  Its dimension computation (CPython `PIL/Image.py`) is

```
x, y = map(math.floor, size)
if x >= self.width and y >= self.height:
    return
aspect = self.width / self.height
if x / y >= aspect:
    x = round_aspect(y * aspect, key=lambda n: abs(aspect - n / y))
else:
    y = round_aspect(x / aspect,
                     key=lambda n: 0 if n == 0 else abs(aspect - x / n))
```

with `round_aspect(number, key) = max(min(floor(number), ceil(number),
key=key), 1)` (`min` returning the first argument on ties).  The float
arithmetic is modelled exactly over `ℚ`. -/

/-- `TARGET_W, TARGET_H = 800, 800`. -/
def TARGET_W : ℕ := 800

/-- Height of the canvas. -/
def TARGET_H : ℕ := 800

/-- PIL `round_aspect` for the first branch (`key = abs(aspect - n / y)`). -/
def round_aspect_w (number aspect y : ℚ) : ℤ :=
  let f : ℤ := ⌊number⌋
  let c : ℤ := ⌈number⌉
  let pick : ℤ := if |aspect - (f : ℚ) / y| ≤ |aspect - (c : ℚ) / y| then f else c
  max pick 1

/-- PIL `round_aspect` for the second branch
(`key = 0 if n == 0 else abs(aspect - x / n)`). -/
def round_aspect_h (number aspect x : ℚ) : ℤ :=
  let f : ℤ := ⌊number⌋
  let c : ℤ := ⌈number⌉
  let keyf : ℚ := if f = 0 then 0 else |aspect - x / (f : ℚ)|
  let keyc : ℚ := if c = 0 then 0 else |aspect - x / (c : ℚ)|
  let pick : ℤ := if keyf ≤ keyc then f else c
  max pick 1

/-- Dimensions produced by `img.thumbnail((tx, ty), Image.LANCZOS)` on a
`w × h` image. -/
def thumbnail_size (tx ty w h : ℕ) : ℕ × ℕ :=
  if w ≤ tx ∧ h ≤ ty then (w, h)
  else
    let aspect : ℚ := (w : ℚ) / (h : ℚ)
    if aspect ≤ (tx : ℚ) / (ty : ℚ) then
      ((round_aspect_w ((ty : ℚ) * aspect) aspect (ty : ℚ)).toNat, ty)
    else
      (tx, (round_aspect_h ((tx : ℚ) / aspect) aspect (tx : ℚ)).toNat)

/-- Result of `to_exact_canvas_webp`, at the level of pixel geometry: the
canvas dimensions of the saved image, the dimensions of the scaled source
pasted onto it, and the paste offsets `x = (TARGET_W - img.width) // 2`,
`y = (TARGET_H - img.height) // 2`. -/
structure CanvasResult where
  canvas_w : ℕ
  canvas_h : ℕ
  paste_w : ℕ
  paste_h : ℕ
  off_x : ℤ
  off_y : ℤ
  deriving Repr, DecidableEq

/-- `to_exact_canvas_webp` on a decodable source image of dimensions
`w × h`: thumbnail to fit `TARGET_W × TARGET_H`, create the white
`TARGET_W × TARGET_H` canvas, paste centred with integer-divided offsets.
The saved file has exactly the canvas dimensions. -/
def to_exact_canvas_webp (w h : ℕ) : CanvasResult :=
  let wh := thumbnail_size TARGET_W TARGET_H w h
  { canvas_w := TARGET_W
    canvas_h := TARGET_H
    paste_w := wh.1
    paste_h := wh.2
    off_x := ((TARGET_W : ℤ) - wh.1) / 2
    off_y := ((TARGET_H : ℤ) - wh.2) / 2 }

/-! ## `download_images_by_product.process_line` -/

/-- `f"product-{idx:03d}"`: decimal representation of `idx`, zero-padded
on the left to width 3. -/
def pad3 (n : ℕ) : String :=
  let s := Nat.repr n
  if s.length < 3 then (⟨List.replicate (3 - s.length) '0'⟩ : String) ++ s else s

/-- The `urls_part`/`title` split of one input line:
`line.split("\t", 1)` when a tab is present, otherwise the whole line with
the synthetic title `f"product-{idx:03d}"`. -/
def line_parts (line : String) (idx : ℕ) : String × String :=
  if '\t' ∈ line.toList then
    (⟨line.toList.takeWhile (fun c => c ≠ '\t')⟩,
     ⟨(line.toList.dropWhile (fun c => c ≠ '\t')).tail⟩)
  else
    (line, "product-" ++ pad3 idx)

/-- `[u.strip() for u in urls_part.split(";") if u.strip()]`. -/
def parsed_urls (urls_part : String) : List (List Char) :=
  ((splitOnChar ';' urls_part.toList).map pyStrip).filter (fun u => u ≠ [])

/-- `OUT_ROOT` relative to the script directory. -/
def OUT_ROOT : String := "images"

/-- Observable outcome of `process_line` on one row: either the row was
skipped (no folder created, no image work), or a folder was created and
`urlCount` URLs were attempted. -/
inductive RowOutcome where
  | skipped
  | processed (folder : String) (urlCount : ℕ)
  deriving Repr, DecidableEq

/-- `process_line(line, idx)` over the abstract filesystem `fs`; `none`
models non-termination of the folder probe. -/
def process_line (fs : String → Bool) (fuel : ℕ) (line : String) (idx : ℕ) :
    Option RowOutcome :=
  let parts := line_parts line idx
  let slug := short_title_slug parts.2
  match ensure_unique_folder fs fuel OUT_ROOT slug with
  | none => none
  | some out_dir =>
    let urls := parsed_urls parts.1
    if urls = [] then some RowOutcome.skipped
    else some (RowOutcome.processed out_dir urls.length)

/-- The `for idx, line in enumerate(lines, start=1)` loop of `main`:
every line is processed, one outcome per line. -/
def process_lines (fs : String → Bool) (fuel : ℕ) (lines : List String) :
    List (Option RowOutcome) :=
  ((List.range lines.length).zip lines).map (fun p => process_line fs fuel p.2 (p.1 + 1))

/-! ## `export_product_metadata.py`: values and helpers -/

/-- A spreadsheet cell value as `gspread.get_all_records` can deliver it to
the Python code: absent (`None`), a string, an `int`, or a `float`.  Floats
are modelled by their exact rational value. -/
inductive PyVal where
  | vnone
  | vstr (s : String)
  | vint (n : ℤ)
  | vfloat (q : ℚ)
  deriving Repr, DecidableEq

/-- Python `str.strip()` on a `String`. -/
def pyStripS (s : String) : String := ⟨pyStrip s.toList⟩

/-- Python `a or b` for strings: `b` when `a` is empty. -/
def pyOr (a b : String) : String := if a = "" then b else a

/-- `sep.join(pieces)` on `String`s. -/
def joinStrSep (sep : String) (l : List String) : String :=
  ⟨joinSep sep.toList (l.map String.toList)⟩

/-- `_as_str(value)`: empty string for `None`, otherwise `str(value)`.
Model boundary: `str` of a non-integral float uses CPython's
shortest-roundtrip float repr; no claim depends on that case, and the model
prints the exact rational. -/
def _as_str (v : PyVal) : String :=
  match v with
  | .vnone => ""
  | .vstr s => s
  | .vint n => Int.repr n
  | .vfloat q =>
    if q.den = 1 then Int.repr q.num ++ ".0"
    else Int.repr q.num ++ "/" ++ Nat.repr q.den

/-- A record produced by `worksheet.get_all_records()`: field name to cell
value, in column order. -/
abbrev Record := List (String × PyVal)

/-- `record.get(key)` — `none` when the key is absent. -/
def pyGet (r : Record) (k : String) : Option PyVal :=
  (r.find? (fun p => p.1 == k)).map (fun p => p.2)

/-- `record.get(key, default)`. -/
def pyGetD (r : Record) (k : String) (d : PyVal) : PyVal := (pyGet r k).getD d

/-! ## `export_product_metadata.normalise_price` -/

/-- Two-decimal-digit zero-padded numeral for `k < 100`. -/
def pad2 (k : ℕ) : String := if k < 10 then "0" ++ Nat.repr k else Nat.repr k

/-- `f"{q:.2f}"` over the exact rational value: round `q · 100` to the
nearest integer and print with two decimals.  Model boundary: CPython
rounds the *binary double* (ties to even on the double's exact value);
the two agree except on values within a double rounding error of a
half-cent tie, which no claim exercises. -/
def format2f (q : ℚ) : String :=
  let n : ℤ := round (q * 100)
  let m : ℕ := n.natAbs
  (if n < 0 then "-" else "") ++ Nat.repr (m / 100) ++ "." ++ pad2 (m % 100)

/-- Numeric value of a (non-empty) digit run. -/
def digitsVal (l : List Char) : ℕ :=
  l.foldl (fun a c => 10 * a + (c.toNat - 48)) 0

/-- Unsigned part of Python `float(s)` on plain decimal literals:
`digits`, `digits.`, `.digits` or `digits.digits`.  Model boundary:
CPython also accepts exponents, `inf`/`nan` and underscore separators;
the source feeds it spreadsheet price cells, which are plain decimals. -/
def parseFloatCore (l : List Char) : Option ℚ :=
  let ip := l.takeWhile Char.isDigit
  let rest := l.dropWhile Char.isDigit
  match rest with
  | [] => if ip = [] then none else some (digitsVal ip : ℚ)
  | '.' :: fp =>
    if fp.all Char.isDigit && !(ip = [] && fp = []) then
      some ((digitsVal ip : ℚ) + (digitsVal fp : ℚ) / 10 ^ fp.length)
    else none
  | _ => none

/-- Python `float(s)` (see `parseFloatCore`), with an optional sign. -/
def parseFloat? (s : String) : Option ℚ :=
  match s.toList with
  | '+' :: rest => parseFloatCore rest
  | '-' :: rest => (parseFloatCore rest).map Neg.neg
  | l => parseFloatCore l

/-- `normalise_price(value)`, transcribed clause by clause:
falsy input (`None`, `""`, numeric zero) yields `""`; a number is formatted
with two decimals behind `"£"`; a string is stripped, passed through if it
starts with `"£"`, formatted if it parses as a float, and passed through
(stripped) otherwise. -/
def normalise_price (v : PyVal) : String :=
  match v with
  | .vnone => ""
  | .vint n => if n = 0 then "" else "£" ++ format2f (n : ℚ)
  | .vfloat q => if q = 0 then "" else "£" ++ format2f q
  | .vstr s =>
    if s = "" then ""
    else
      let t : List Char := pyStrip s.toList
      if t = [] then ""
      else if t.head? = some '£' then (⟨t⟩ : String)
      else
        match parseFloat? ⟨t⟩ with
        | some q => "£" ++ format2f q
        | none => (⟨t⟩ : String)

/-! ## `export_product_metadata.trim_to_length` -/

/-- The punctuation characters of `rstrip(",.;:-")`. -/
def isTrailPunct (c : Char) : Bool := c ∈ [',', '.', ';', ':', '-']

/-- The word-accumulation loop of `trim_to_length`: `acc` holds the words
taken so far (reversed), `total` the length of their space-joined text. -/
def trimLoop (limit : ℕ) : List (List Char) → List (List Char) → ℕ → List (List Char)
  | [], acc, _ => acc.reverse
  | w :: ws, acc, total =>
    let extra := if acc = [] then w.length else w.length + 1
    if limit - 1 < total + extra then acc.reverse
    else trimLoop limit ws (w :: acc) (total + extra)

/-- `trim_to_length(text, limit)`.  `limit` is a natural number; the two
call sites use 60 and 160. -/
def trim_to_length (text : String) (limit : ℕ) : String :=
  let t := pyStrip text.toList
  if t.length ≤ limit then (⟨t⟩ : String)
  else
    let trimmed := trimLoop limit (splitWS t) [] 0
    ⟨rstripChars isTrailPunct (joinSep [' '] trimmed) ++ ['…']⟩

/-! ## `export_product_metadata.build_keywords` -/

/-- The `STOP_WORDS` set, in source order. -/
def STOP_WORDS : List String :=
  ["the", "and", "with", "for", "from", "into", "your", "this", "that",
   "a", "an", "of", "to", "on", "ml", "pack", "set"]

/-- A character of the token class `[A-Za-z0-9']` of
`re.findall(r"[A-Za-z0-9']+", ...)`. -/
def isTokChar (c : Char) : Bool := c.isAlpha || c.isDigit || c = apos

/-- The token filter/dedup loop of `build_keywords`: lowercase each token,
drop stop words and tokens of length ≤ 2, keep the first occurrence of
each surviving token. -/
def kwAux : List String → List String → List String
  | [], _ => []
  | t :: ts, seen =>
    let n := lowerStr t
    if n ∈ STOP_WORDS ∨ n.length ≤ 2 then kwAux ts seen
    else if n ∈ seen then kwAux ts seen
    else n :: kwAux ts (n :: seen)

/-- The raw `re.findall(r"[A-Za-z0-9']+", f"{brand} {title} {category}")`
token list. -/
def build_keywords_tokens (title brand category : String) : List String :=
  (runs isTokChar (brand ++ " " ++ title ++ " " ++ category).toList).map
    (fun w => (⟨w⟩ : String))

/-- The deduplicated keyword list before the 15-entry cap. -/
def build_keywords_list (title brand category : String) : List String :=
  kwAux (build_keywords_tokens title brand category) []

/-- `build_keywords(title, brand, category)`. -/
def build_keywords (title brand category : String) : String :=
  joinStrSep ", " ((build_keywords_list title brand category).take 15)

/-! ## `export_product_metadata.detect_gender` -/

/-- The ordered `GENDER_KEYWORDS` table, in source order. -/
def GENDER_KEYWORDS : List (String × String) :=
  [("women", "Women"), ("woman", "Women"), ("ladies", "Women"),
   ("female", "Women"), ("girls", "Women"),
   ("men", "Men"), ("man" ++ sApos ++ "s", "Men"), ("male", "Men"), ("boys", "Men"),
   ("kids", "Unisex"), ("children", "Unisex"), ("unisex", "Unisex")]

/-- Whether the position before the scan head is a `\b` boundary for a
pattern starting with a word character: start of string, or a non-word
previous character. -/
def boundaryOK : Option Char → Bool
  | none => true
  | some c => !isWordChar c

/-- Whether `pat` occurs at the head of `s` and is followed by a `\b`
boundary (end of string or a non-word character). -/
def matchHere (pat s : List Char) : Bool :=
  decide (s.take pat.length = pat) &&
    (match s.drop pat.length with
     | [] => true
     | c :: _ => !isWordChar c)

/-- `re.search(rf"\b{re.escape(pat)}\b", s) is not None`, for a pattern
that starts and ends with a word character (every `GENDER_KEYWORDS` token
does); `prev` is the character just before the scan head. -/
def wwSearch (pat : List Char) : Option Char → List Char → Bool
  | prev, [] => boundaryOK prev && matchHere pat []
  | prev, c :: rest =>
    (boundaryOK prev && matchHere pat (c :: rest)) || wwSearch pat (some c) rest

/-- The `for token, gender in GENDER_KEYWORDS` scan: first match wins. -/
def scanGender (lower : List Char) : List (String × String) → String
  | [] => "Unisex"
  | (tok, g) :: rest =>
    if wwSearch tok.toList none lower then g else scanGender lower rest

/-- `detect_gender(title)`. -/
def detect_gender (title : String) : String :=
  scanGender (title.toList.map Char.toLower) GENDER_KEYWORDS

/-! ## `export_product_metadata`: description composition and row build -/

/-- `compose_short_description(title, brand, category, price)`. -/
def compose_short_description (title brand category price : String) : String :=
  let parts := [pyStripS (brand ++ " " ++ title), pyStripS (category ++ " essential")]
  let parts := if price ≠ "" then parts ++ ["Priced at " ++ price] else parts
  joinStrSep " | " (parts.filter (fun p => p ≠ ""))

/-- `compose_long_description(title, brand, category, rating, asin)`. -/
def compose_long_description (title brand category rating asin : String) : String :=
  let lines := ["Experience " ++ title ++ " from " ++ brand ++ "—a trusted " ++
    lowerStr category ++ " favourite."]
  let lines := if rating ≠ "" then
    lines ++ ["Customers rate it " ++ rating ++ " out of 5 for quality and results."]
    else lines
  let lines := lines ++ ["Perfect for Amazon FBA listings with reliable performance data."]
  let lines := if asin ≠ "" then lines ++ ["ASIN: " ++ asin] else lines
  joinStrSep " " lines

/-- `best_price(record)`: first non-empty among the three normalised
price fields. -/
def best_price (r : Record) : String :=
  pyOr (normalise_price (pyGetD r "Buy Box 🚚: Current" PyVal.vnone))
    (pyOr (normalise_price (pyGetD r "New: Current" PyVal.vnone))
      (normalise_price (pyGetD r "List Price: Current" PyVal.vnone)))

/-- `extract_main_image(record)`: first non-empty trimmed entry of the
semicolon-separated `Image` field.  Model boundary: on a truthy non-string
cell CPython raises `AttributeError` at `raw.split`; the model returns
`""` there, and no claim depends on this field. -/
def extract_main_image (r : Record) : String :=
  match pyGetD r "Image" (PyVal.vstr "") with
  | .vstr s =>
    if s = "" then ""
    else
      match ((splitOnChar ';' s.toList).map pyStrip).filter (fun p => p ≠ []) with
      | [] => ""
      | p :: _ => (⟨p⟩ : String)
  | _ => ""

/-- The loop body of `build_rows`: `none` when the row is skipped for an
empty title, otherwise the metadata record, as a key-value list in
construction order. -/
def buildRow? (record : Record) : Option (List (String × String)) :=
  let title := pyStripS (_as_str (pyGetD record "Title" (PyVal.vstr "")))
  if title = "" then none
  else
    let brand := pyOr (pyStripS (_as_str (pyGetD record "Brand" (PyVal.vstr "")))) "Unknown"
    let category :=
      pyOr (pyStripS (_as_str (pyGetD record "Categories: Root" (PyVal.vstr "")))) "General"
    let price := best_price record
    let rating := pyStripS (_as_str (pyGetD record "Reviews: Rating" (PyVal.vstr "")))
    let asin := pyStripS (_as_str (pyGetD record "ASIN" (PyVal.vstr "")))
    let slug := short_title_slug title
    let main_image_url := extract_main_image record
    some
      [("Product Title", title),
       ("SEO Title (<=60)", trim_to_length title 60),
       ("Meta Description (<=160)",
        trim_to_length ("Shop " ++ title ++ " by " ++ brand ++ ", a standout in " ++
          lowerStr category ++
          " on Amazon. Great choice for FBA sellers seeking steady demand.") 160),
       ("Short Description", compose_short_description title brand category price),
       ("Long Description", compose_long_description title brand category rating asin),
       ("Keywords", build_keywords title brand category),
       ("Category (Suggested)", category),
       ("Target Gender", detect_gender title),
       ("Brand", brand),
       ("Image Folder", "images/" ++ slug),
       ("Main Image File", "1.webp"),
       ("Price", price),
       ("Main Image Source", main_image_url)]

/-- `build_rows(records)`. -/
def build_rows (records : List Record) : List (List (String × String)) :=
  records.filterMap buildRow?

/-! ## `export_product_metadata.push_to_sheet`

The destination spreadsheet is modelled as a map from worksheet name to
grid (list of rows of cells).  `worksheet.clear()`, `worksheet.resize(...)`
and `worksheet.update("A1", data)` together replace the named worksheet's
contents with exactly `data`; `add_worksheet` creates it when missing.  A
`KeyError` from `row[h]` is raised while `data` is built, before any
worksheet call. -/

/-- Name of the destination tab. -/
def OUTPUT_WORKSHEET_NAME : String := "Product Metadata"

/-- A worksheet grid: rows of cells. -/
abbrev Grid := List (List String)

/-- The destination spreadsheet: named worksheets with their grids. -/
abbrev SheetState := List (String × Grid)

/-- `row[h]` on a metadata record: `none` models `KeyError`. -/
def lookupRow (r : List (String × String)) (k : String) : Option String :=
  (r.find? (fun p => p.1 == k)).map (fun p => p.2)

/-- Grid of the worksheet named `name`, if present. -/
def lookupSheet (st : SheetState) (name : String) : Option Grid :=
  (st.find? (fun w => w.1 == name)).map (fun w => w.2)

/-- Replace the grid of the (first) worksheet named `name`, creating the
worksheet at the end when absent — worksheet titles are unique in a real
spreadsheet. -/
def upsert : SheetState → String → Grid → SheetState
  | [], name, grid => [(name, grid)]
  | w :: t, name, grid =>
    if w.1 == name then (w.1, grid) :: t else w :: upsert t name grid

/-- `push_to_sheet(spreadsheet, rows)`: error on empty `rows`
(`ValueError`) or on a record missing a key of the first record
(`KeyError`); otherwise replace the destination worksheet with a header
row (keys of the first record, construction order) followed by one row per
record in the same key order. -/
def push_to_sheet (st : SheetState) (rows : List (List (String × String))) :
    Except String SheetState :=
  match rows with
  | [] => Except.error "No data rows generated from the sheet."
  | r0 :: _ =>
    let headers := r0.map (fun p => p.1)
    match rows.mapM (fun r => headers.mapM (fun h => lookupRow r h)) with
    | none => Except.error "KeyError"
    | some body => Except.ok (upsert st OUTPUT_WORKSHEET_NAME (headers :: body))

/-! ## Character arithmetic lemmas -/

theorem ofNatAux_toNat (n : ℕ) (hv : n.isValidChar) : (Char.ofNatAux n hv).toNat = n := by
  simp [Char.ofNatAux, Char.toNat, UInt32.toNat]

theorem isUpper_iff (c : Char) : c.isUpper = true ↔ 65 ≤ c.toNat ∧ c.toNat ≤ 90 := by
  simp only [Char.isUpper]
  have h1 : (c.val ≥ 65) ↔ (65 ≤ c.toNat) := Iff.rfl
  have h2 : (c.val ≤ 90) ↔ (c.toNat ≤ 90) := Iff.rfl
  rw [Bool.and_eq_true, decide_eq_true_iff, decide_eq_true_iff]
  exact and_congr h1 h2

theorem isLower_iff (c : Char) : c.isLower = true ↔ 97 ≤ c.toNat ∧ c.toNat ≤ 122 := by
  simp only [Char.isLower]
  have h1 : (c.val ≥ 97) ↔ (97 ≤ c.toNat) := Iff.rfl
  have h2 : (c.val ≤ 122) ↔ (c.toNat ≤ 122) := Iff.rfl
  rw [Bool.and_eq_true, decide_eq_true_iff, decide_eq_true_iff]
  exact and_congr h1 h2

theorem isDigit_iff (c : Char) : c.isDigit = true ↔ 48 ≤ c.toNat ∧ c.toNat ≤ 57 := by
  simp only [Char.isDigit]
  have h1 : (c.val ≥ 48) ↔ (48 ≤ c.toNat) := Iff.rfl
  have h2 : (c.val ≤ 57) ↔ (c.toNat ≤ 57) := Iff.rfl
  rw [Bool.and_eq_true, decide_eq_true_iff, decide_eq_true_iff]
  exact and_congr h1 h2

theorem toLower_toNat_of_upper (c : Char) (h1 : 65 ≤ c.toNat) (h2 : c.toNat ≤ 90) :
    (Char.toLower c).toNat = c.toNat + 32 := by
  unfold Char.toLower
  have hv : (c.toNat + 32).isValidChar := by left; omega
  rw [if_pos ⟨h1, h2⟩, Char.ofNat, dif_pos hv, ofNatAux_toNat]

theorem toLower_eq_self (c : Char) (h : ¬(65 ≤ c.toNat ∧ c.toNat ≤ 90)) :
    Char.toLower c = c := by
  unfold Char.toLower
  rw [if_neg h]

theorem toLower_not_upper (c : Char) : (Char.toLower c).isUpper = false := by
  by_cases h : 65 ≤ c.toNat ∧ c.toNat ≤ 90
  · have := toLower_toNat_of_upper c h.1 h.2
    rw [← Bool.not_eq_true, isUpper_iff, this]
    omega
  · rw [toLower_eq_self c h, ← Bool.not_eq_true, isUpper_iff]
    omega

theorem toLower_isLower_of_isUpper (c : Char) (h : c.isUpper = true) :
    (Char.toLower c).isLower = true := by
  rw [isUpper_iff] at h
  rw [isLower_iff, toLower_toNat_of_upper c h.1 h.2]
  omega

/-! ## Lemmas on the folder probe loop -/

theorem ensureAux_not_exists (fs : String → Bool) (root base : String) :
    ∀ (fuel attempt : ℕ) (p : String),
      ensureAux fs root base fuel attempt = some p → fs p = false := by
  intro fuel
  induction fuel with
  | zero => intro attempt p h; simp [ensureAux] at h
  | succ n ih =>
    intro attempt p h
    rw [ensureAux] at h
    by_cases hc : fs (candidate root base attempt) = true
    · rw [if_pos hc] at h
      exact ih _ _ h
    · rw [if_neg hc] at h
      cases h
      simpa using hc

theorem ensureAux_finds (fs : String → Bool) (root base : String) :
    ∀ (N fuel attempt : ℕ), N < fuel →
      (∀ k, attempt ≤ k → k < attempt + N → fs (candidate root base k) = true) →
      fs (candidate root base (attempt + N)) = false →
      ensureAux fs root base fuel attempt = some (candidate root base (attempt + N)) := by
  intro N
  induction N with
  | zero =>
    intro fuel attempt hf _ hfree
    obtain ⟨m, rfl⟩ : ∃ m, fuel = m + 1 := ⟨fuel - 1, by omega⟩
    have hfree' : fs (candidate root base attempt) = false := hfree
    simp [ensureAux, hfree']
  | succ n ih =>
    intro fuel attempt hf hcoll hfree
    obtain ⟨m, rfl⟩ : ∃ m, fuel = m + 1 := ⟨fuel - 1, by omega⟩
    rw [ensureAux, if_pos (hcoll attempt le_rfl (by omega))]
    have heq : attempt + 1 + n = attempt + (n + 1) := by omega
    have := ih m (attempt + 1) (by omega)
      (fun k h1 h2 => hcoll k (by omega) (by omega)) (by rw [heq]; exact hfree)
    rw [this, heq]

/-- **C3.** `ensure_unique_folder(root, base_slug)` never returns a path
that already exists at call time; when the `N` prior colliding folders
`root/base`, `root/base-2`, …, `root/base-N` exist (the family `N` prior
runs with the same slug create) and the next candidate is free, it returns
`root/base-(N+1)`; with no collision (`N = 0`) it returns `root/base`. -/
theorem C3_spec (fs : String → Bool) (fuel : ℕ) (root base : String) (N : ℕ)
    (hcoll : ∀ k, 1 ≤ k → k ≤ N → fs (candidate root base k) = true)
    (hfree : fs (candidate root base (N + 1)) = false)
    (hfuel : N < fuel) :
    ensure_unique_folder fs fuel root base = some (candidate root base (N + 1))
    ∧ (∀ p, ensure_unique_folder fs fuel root base = some p → fs p = false)
    ∧ candidate root base 1 = root ++ "/" ++ base
    ∧ (1 ≤ N → candidate root base (N + 1) = root ++ "/" ++ base ++ "-" ++ Nat.repr (N + 1)) := by
  refine ⟨?_, ?_, ?_, ?_⟩
  · have := ensureAux_finds fs root base N fuel 1 hfuel
      (fun k h1 h2 => hcoll k h1 (by omega)) (by rw [Nat.add_comm]; exact hfree)
    rw [ensure_unique_folder, this, Nat.add_comm]
  · intro p h
    exact ensureAux_not_exists fs root base fuel 1 p h
  · rw [candidate, if_pos rfl]
  · intro hN
    rw [candidate, if_neg (by omega)]

/-- Witness for C3 at a concrete filesystem: `images/b` and `images/b-2`
exist, so the probe returns `images/b-3`. -/
theorem C3_witness :
    ensure_unique_folder (fun p => ["images/b", "images/b-2"].contains p) 3 "images" "b"
      = some "images/b-3" := by
  have h := C3_spec (fun p => ["images/b", "images/b-2"].contains p) 3 "images" "b" 2
    (by intro k h1 h2; interval_cases k <;> decide) (by decide) (by decide)
  rw [h.1]
  rfl

/-! ## C4: normalise_price -/

theorem normalise_price_vstr (s : String) :
    normalise_price (PyVal.vstr s) =
      if s = "" then ""
      else if pyStrip s.toList = [] then ""
      else if (pyStrip s.toList).head? = some '£' then (⟨pyStrip s.toList⟩ : String)
      else
        match parseFloat? (⟨pyStrip s.toList⟩ : String) with
        | some q => "£" ++ format2f q
        | none => (⟨pyStrip s.toList⟩ : String) := rfl

theorem np_strip_empty (s : String) (h : pyStrip s.toList = []) :
    normalise_price (PyVal.vstr s) = "" := by
  by_cases hs : s = ""
  · rw [hs]; rfl
  · rw [normalise_price_vstr, if_neg hs, if_pos h]

theorem np_pound (s : String) (h : (pyStrip s.toList).head? = some '£') :
    normalise_price (PyVal.vstr s) = pyStripS s := by
  have hne : pyStrip s.toList ≠ [] := by
    intro hnil; rw [hnil] at h; simp at h
  by_cases hs : s = ""
  · exfalso; apply hne; rw [hs]; rfl
  · rw [normalise_price_vstr, if_neg hs, if_neg hne, if_pos h]
    rfl

theorem np_parse (s : String) (q : ℚ) (hs : s ≠ "")
    (hpound : (pyStrip s.toList).head? ≠ some '£')
    (hparse : parseFloat? (pyStripS s) = some q) :
    normalise_price (PyVal.vstr s) = "£" ++ format2f q := by
  have hne : pyStrip s.toList ≠ [] := by
    intro hnil
    rw [pyStripS, hnil] at hparse
    simp [parseFloat?, parseFloatCore] at hparse
  rw [normalise_price_vstr, if_neg hs, if_neg hne, if_neg hpound]
  rw [show (⟨pyStrip s.toList⟩ : String) = pyStripS s from rfl, hparse]

theorem np_raw (s : String) (hs : s ≠ "") (hne : pyStrip s.toList ≠ [])
    (hpound : (pyStrip s.toList).head? ≠ some '£')
    (hparse : parseFloat? (pyStripS s) = none) :
    normalise_price (PyVal.vstr s) = pyStripS s := by
  rw [normalise_price_vstr, if_neg hs, if_neg hne, if_neg hpound]
  rw [show (⟨pyStrip s.toList⟩ : String) = pyStripS s from rfl, hparse, pyStripS]

theorem format2f_of_round (q : ℚ) (n : ℤ) (h : round (q * 100) = n) :
    format2f q =
      (if n < 0 then "-" else "") ++ Nat.repr (n.natAbs / 100) ++ "." ++
        pad2 (n.natAbs % 100) := by
  simp only [format2f, h]

theorem parseFloat_1999 : parseFloat? "19.99" = some (1999 / 100 : ℚ) := by
  have h : parseFloat? "19.99" =
      some ((digitsVal ['1', '9'] : ℚ) + (digitsVal ['9', '9'] : ℚ) / 10 ^ (2 : ℕ)) := rfl
  rw [h, Option.some.injEq,
    show digitsVal ['1', '9'] = 19 from by decide,
    show digitsVal ['9', '9'] = 99 from by decide]
  norm_num

theorem round_1999 : round ((1999 / 100 : ℚ) * 100) = 1999 := by
  rw [round_eq]
  rw [show ((1999 / 100 : ℚ) * 100 + 1 / 2) = 3999 / 2 by norm_num]
  rw [Int.floor_eq_iff]
  norm_num

theorem np_example_1999 : normalise_price (PyVal.vstr "19.99") = "£19.99" := by
  rw [np_parse "19.99" (1999 / 100 : ℚ) (by decide) (by decide) parseFloat_1999]
  rw [format2f_of_round (1999 / 100 : ℚ) 1999 round_1999]
  decide

/-- **C4 counterexample.** The claim states that every numeric input is
returned as `"£"` plus its two-decimal rendering; the integer `0` is falsy
in Python, so `normalise_price(0)` returns `""`, not `"£0.00"`. -/
theorem C4_counterexample :
    normalise_price (PyVal.vint 0) = "" ∧ ("" : String) ≠ "£0.00" := by
  constructor
  · rfl
  · decide

/-- **C4 (amended).** `normalise_price`: empty or falsy input (empty or
whitespace-only string, `None`, numeric zero) yields `""`; a stripped
string starting with `"£"` is returned stripped (unchanged when already
stripped); a nonzero number, or a string parsing as a float, is rendered
as `"£"` plus the value formatted to two decimal places; any other string
is returned stripped; in particular `normalise_price("19.99") = "£19.99"`,
`normalise_price("£5") = "£5"`, `normalise_price("") = ""` and
`normalise_price("abc") = "abc"`. -/
theorem C4_spec (s : String) (n : ℤ) (q : ℚ) :
    normalise_price (PyVal.vstr "") = ""
    ∧ normalise_price PyVal.vnone = ""
    ∧ (pyStrip s.toList = [] → normalise_price (PyVal.vstr s) = "")
    ∧ ((pyStrip s.toList).head? = some '£' →
        normalise_price (PyVal.vstr s) = pyStripS s)
    ∧ (s ≠ "" → (pyStrip s.toList).head? ≠ some '£' →
        parseFloat? (pyStripS s) = some q →
        normalise_price (PyVal.vstr s) = "£" ++ format2f q)
    ∧ (s ≠ "" → pyStrip s.toList ≠ [] → (pyStrip s.toList).head? ≠ some '£' →
        parseFloat? (pyStripS s) = none →
        normalise_price (PyVal.vstr s) = pyStripS s)
    ∧ (n ≠ 0 → normalise_price (PyVal.vint n) = "£" ++ format2f (n : ℚ))
    ∧ (q ≠ 0 → normalise_price (PyVal.vfloat q) = "£" ++ format2f q)
    ∧ normalise_price (PyVal.vstr "19.99") = "£19.99"
    ∧ normalise_price (PyVal.vstr "£5") = "£5"
    ∧ normalise_price (PyVal.vstr "abc") = "abc" := by
  refine ⟨rfl, rfl, np_strip_empty s, np_pound s, np_parse s q, np_raw s, ?_, ?_,
    np_example_1999, ?_, ?_⟩
  · intro hn
    simp only [normalise_price, if_neg hn]
  · intro hq
    simp only [normalise_price, if_neg hq]
  · rw [np_pound "£5" (by decide)]
    decide
  · rw [np_raw "abc" (by decide) (by decide) (by decide) (by rfl)]
    decide

/-- Witness for C4 at a concrete input: a nonzero integer. -/
theorem C4_witness :
    normalise_price (PyVal.vint 5) = "£" ++ format2f ((5 : ℤ) : ℚ) :=
  (C4_spec "x" 5 0).2.2.2.2.2.2.1 (by decide)

/-! ## C9: push_to_sheet -/

theorem lookupSheet_upsert_self (st : SheetState) (name : String) (grid : Grid) :
    lookupSheet (upsert st name grid) name = some grid := by
  induction st with
  | nil => simp [upsert, lookupSheet, List.find?]
  | cons w t ih =>
    by_cases hw : (w.1 == name) = true
    · simp [upsert, hw, lookupSheet, List.find?]
    · rw [Bool.not_eq_true] at hw
      simp [upsert, hw, lookupSheet, List.find?] at ih ⊢
      exact ih

theorem lookupSheet_upsert_other (st : SheetState) (name : String) (grid : Grid)
    (other : String) (hother : other ≠ name) :
    lookupSheet (upsert st name grid) other = lookupSheet st other := by
  induction st with
  | nil =>
    have : (name == other) = false := by
      rw [beq_eq_false_iff_ne]
      exact fun h => hother h.symm
    simp [upsert, lookupSheet, List.find?, this]
  | cons w t ih =>
    by_cases hw : (w.1 == name) = true
    · have hwo : (w.1 == other) = false := by
        rw [beq_eq_false_iff_ne]
        rw [beq_iff_eq] at hw
        rw [hw]
        exact fun h => hother h.symm
      simp [upsert, hw, lookupSheet, List.find?, hwo]
    · rw [Bool.not_eq_true] at hw
      by_cases hwo : (w.1 == other) = true
      · simp [upsert, hw, lookupSheet, List.find?, hwo]
      · rw [Bool.not_eq_true] at hwo
        simp [upsert, hw, lookupSheet, List.find?, hwo] at ih ⊢
        exact ih

theorem push_to_sheet_cons (st : SheetState) (r0 : List (String × String))
    (rest : List (List (String × String))) :
    push_to_sheet st (r0 :: rest) =
      match (r0 :: rest).mapM
          (fun r => (r0.map (fun p => p.1)).mapM (fun h => lookupRow r h)) with
      | none => Except.error "KeyError"
      | some body =>
        Except.ok (upsert st OUTPUT_WORKSHEET_NAME ((r0.map (fun p => p.1)) :: body)) := rfl

/-- **C9 counterexample.** The claim says `push_to_sheet` raises only when
`rows` is empty; a non-empty `rows` whose second record lacks the key of
the first record also raises (`KeyError` at `row[h]`). -/
theorem C9_counterexample :
    push_to_sheet [] [[("a", "1")], []] = Except.error "KeyError"
    ∧ ([[("a", "1")], []] : List (List (String × String))) ≠ [] := by
  exact ⟨rfl, by decide⟩

/-- **C9 (amended).** `push_to_sheet(spreadsheet, rows)` raises an error
if and only if `rows` is empty or some record is missing a key of the
first record (absent external spreadsheet failures); when it raises, no
write, clear, or resize of the destination worksheet has been performed
(the model returns the error before any state change, as the Python code
raises before any worksheet call); when `rows` is non-empty and every
record carries the first record's keys, it replaces the destination
worksheet with a header row of the first record's keys in construction
order followed by one row per record in the same key order, leaving every
other worksheet unchanged. -/
theorem C9_spec (st : SheetState) (rows : List (List (String × String)))
    (r0 : List (String × String)) (rest : List (List (String × String))) (body : Grid) :
    push_to_sheet st [] = Except.error "No data rows generated from the sheet."
    ∧ (rows = r0 :: rest →
        rows.mapM (fun r => (r0.map (fun p => p.1)).mapM (fun h => lookupRow r h)) = none →
        push_to_sheet st rows = Except.error "KeyError")
    ∧ (rows = r0 :: rest →
        rows.mapM (fun r => (r0.map (fun p => p.1)).mapM (fun h => lookupRow r h))
          = some body →
        push_to_sheet st rows =
          Except.ok (upsert st OUTPUT_WORKSHEET_NAME ((r0.map (fun p => p.1)) :: body))
        ∧ lookupSheet (upsert st OUTPUT_WORKSHEET_NAME ((r0.map (fun p => p.1)) :: body))
            OUTPUT_WORKSHEET_NAME = some ((r0.map (fun p => p.1)) :: body)
        ∧ (∀ other, other ≠ OUTPUT_WORKSHEET_NAME →
            lookupSheet (upsert st OUTPUT_WORKSHEET_NAME ((r0.map (fun p => p.1)) :: body))
              other = lookupSheet st other)) := by
  refine ⟨rfl, ?_, ?_⟩
  · intro hrows hmap
    subst hrows
    rw [push_to_sheet_cons, hmap]
  · intro hrows hmap
    subst hrows
    refine ⟨?_, lookupSheet_upsert_self _ _ _, fun other h => lookupSheet_upsert_other _ _ _ _ h⟩
    rw [push_to_sheet_cons, hmap]

/-- Witness for C9 at a concrete spreadsheet: two well-formed records are
pushed; the destination worksheet is created, the unrelated one kept. -/
theorem C9_witness :
    push_to_sheet [("Other", [["x"]])] [[("a", "1")], [("a", "2")]]
      = Except.ok (upsert [("Other", [["x"]])] OUTPUT_WORKSHEET_NAME [["a"], ["1"], ["2"]])
    ∧ lookupSheet (upsert [("Other", [["x"]])] OUTPUT_WORKSHEET_NAME [["a"], ["1"], ["2"]])
        "Other" = lookupSheet [("Other", [["x"]])] "Other" := by
  have h := (C9_spec [("Other", [["x"]])] [[("a", "1")], [("a", "2")]]
    [("a", "1")] [[("a", "2")]] [["1"], ["2"]]).2.2 rfl rfl
  exact ⟨h.1, h.2.2 "Other" (by decide)⟩

/-! ## C8: rows with no usable URL are skipped -/

/-- **C8.** A line whose semicolon-separated URL part has zero non-empty
entries after trimming makes `process_line` return the skip outcome: no
output folder is created and no exception escapes (the model's outcome is
total once the folder probe terminates), and the per-line loop of `main`
processes every line, so later rows are not stopped. -/
theorem C8_spec (fs : String → Bool) (fuel : ℕ) (line : String) (idx : ℕ) (d : String)
    (hterm : ensure_unique_folder fs fuel OUT_ROOT
      (short_title_slug (line_parts line idx).2) = some d)
    (hurls : parsed_urls (line_parts line idx).1 = []) :
    process_line fs fuel line idx = some RowOutcome.skipped
    ∧ ∀ lines : List String, (process_lines fs fuel lines).length = lines.length := by
  constructor
  · rw [process_line, hterm, hurls]
    rfl
  · intro lines
    rw [process_lines, List.length_map, List.length_zip, List.length_range,
      Nat.min_self]

/-- Witness for C8: a line of empty URL entries and no title tab, on an
empty filesystem. -/
theorem C8_witness :
    process_line (fun _ => false) 1 " ; ;; " 3 = some RowOutcome.skipped
    ∧ (process_lines (fun _ => false) 1 ["a", "b"]).length = 2 := by
  have h := C8_spec (fun _ => false) 1 " ; ;; " 3 "images/product-003" (by rfl) (by rfl)
  exact ⟨h.1, h.2 ["a", "b"]⟩

/-! ## C10: build_rows image fields -/

theorem buildRow_image_fields (record : Record) (row : List (String × String))
    (h : buildRow? record = some row) :
    lookupRow row "Image Folder" =
      some ("images/" ++
        short_title_slug (pyStripS (_as_str (pyGetD record "Title" (PyVal.vstr "")))))
    ∧ lookupRow row "Main Image File" = some "1.webp" := by
  by_cases htitle : pyStripS (_as_str (pyGetD record "Title" (PyVal.vstr ""))) = ""
  · rw [buildRow?, if_pos htitle] at h
    exact absurd h (by simp)
  · simp only [buildRow?, if_neg htitle, Option.some.injEq] at h
    subst h
    exact ⟨rfl, rfl⟩

/-- **C10.** Every record with a non-empty (stripped) title yields a row of
`build_rows` whose `"Image Folder"` field is `"images/"` followed by
`short_title_slug` of the title alone — the pure slug, never the
collision-suffixed folder that `ensure_unique_folder` may produce in the
download pipeline — and whose `"Main Image File"` field is the constant
`"1.webp"`, whether or not any image was fetched. -/
theorem C10_spec (records : List Record) (record : Record)
    (hmem : record ∈ records)
    (htitle : pyStripS (_as_str (pyGetD record "Title" (PyVal.vstr ""))) ≠ "") :
    ∃ row, buildRow? record = some row
      ∧ row ∈ build_rows records
      ∧ lookupRow row "Image Folder" =
          some ("images/" ++
            short_title_slug (pyStripS (_as_str (pyGetD record "Title" (PyVal.vstr "")))))
      ∧ lookupRow row "Main Image File" = some "1.webp" := by
  obtain ⟨row, hrow⟩ : ∃ row, buildRow? record = some row := by
    rw [buildRow?, if_neg htitle]
    exact ⟨_, rfl⟩
  have hf := buildRow_image_fields record row hrow
  exact ⟨row, hrow, List.mem_filterMap.mpr ⟨record, hmem, hrow⟩, hf.1, hf.2⟩

/-- Witness for C10 at a concrete one-record sheet. -/
theorem C10_witness :
    ∃ row, buildRow? [("Title", PyVal.vstr " Super Widget ")] = some row
      ∧ row ∈ build_rows [[("Title", PyVal.vstr " Super Widget ")]]
      ∧ lookupRow row "Image Folder" =
          some ("images/" ++
            short_title_slug (pyStripS (_as_str
              (pyGetD [("Title", PyVal.vstr " Super Widget ")] "Title" (PyVal.vstr "")))))
      ∧ lookupRow row "Main Image File" = some "1.webp" :=
  C10_spec [[("Title", PyVal.vstr " Super Widget ")]] [("Title", PyVal.vstr " Super Widget ")]
    (by decide) (by decide)

/-! ## C7: detect_gender -/

theorem scanGender_no_match (lower : List Char) :
    ∀ L : List (String × String),
      (∀ p ∈ L, wwSearch p.1.toList none lower = false) →
      scanGender lower L = "Unisex" := by
  intro L
  induction L with
  | nil => intro _; rfl
  | cons p t ih =>
    intro h
    obtain ⟨tok, g⟩ := p
    have h0 : wwSearch tok.toList none lower = false := h (tok, g) (List.mem_cons_self _ _)
    rw [scanGender, if_neg (by rw [h0]; exact Bool.false_ne_true)]
    exact ih (fun q hq => h q (List.mem_cons_of_mem _ hq))

theorem scanGender_first (lower : List Char) :
    ∀ (L : List (String × String)) (i : ℕ) (hi : i < L.length),
      wwSearch (L.get ⟨i, hi⟩).1.toList none lower = true →
      (∀ j (hj : j < i), wwSearch (L.get ⟨j, hj.trans hi⟩).1.toList none lower = false) →
      scanGender lower L = (L.get ⟨i, hi⟩).2 := by
  intro L
  induction L with
  | nil => intro i hi; exact absurd hi (by simp)
  | cons p t ih =>
    intro i hi hmatch hprev
    obtain ⟨tok, g⟩ := p
    cases i with
    | zero =>
      have hm : wwSearch tok.toList none lower = true := hmatch
      rw [scanGender, if_pos hm]
      rfl
    | succ n =>
      have h0 : wwSearch tok.toList none lower = false := hprev 0 (Nat.succ_pos n)
      rw [scanGender, if_neg (by rw [h0]; exact Bool.false_ne_true)]
      exact ih n (Nat.lt_of_succ_lt_succ hi) hmatch
        (fun j hj => hprev (j + 1) (by omega))

/-- **C7.** `detect_gender` scans the lowercased title against the ordered
`GENDER_KEYWORDS` list, matching whole words only; the first keyword in
list order that matches decides the label, and `"Unisex"` is returned when
no keyword matches; in particular `detect_gender("Women's Running Shoes")
= "Women"`, `detect_gender("Kids Backpack") = "Unisex"` and
`detect_gender("Wireless Mouse") = "Unisex"`. -/
theorem C7_spec (title : String) (i : ℕ) (hi : i < GENDER_KEYWORDS.length) :
    ((∀ p ∈ GENDER_KEYWORDS,
        wwSearch p.1.toList none (title.toList.map Char.toLower) = false) →
      detect_gender title = "Unisex")
    ∧ (wwSearch (GENDER_KEYWORDS.get ⟨i, hi⟩).1.toList none
          (title.toList.map Char.toLower) = true →
       (∀ j (hj : j < i), wwSearch (GENDER_KEYWORDS.get ⟨j, hj.trans hi⟩).1.toList none
          (title.toList.map Char.toLower) = false) →
       detect_gender title = (GENDER_KEYWORDS.get ⟨i, hi⟩).2)
    ∧ detect_gender ("Women" ++ sApos ++ "s Running Shoes") = "Women"
    ∧ detect_gender "Kids Backpack" = "Unisex"
    ∧ detect_gender "Wireless Mouse" = "Unisex" := by
  refine ⟨?_, ?_, by decide, by decide, by decide⟩
  · intro h
    exact scanGender_no_match _ GENDER_KEYWORDS h
  · intro hmatch hprev
    exact scanGender_first _ GENDER_KEYWORDS i hi hmatch hprev

/-- Witness for C7: the first keyword `"women"` matches the concrete title
`"Women's Running Shoes"`. -/
theorem C7_witness :
    detect_gender ("Women" ++ sApos ++ "s Running Shoes") =
      (GENDER_KEYWORDS.get ⟨0, by decide⟩).2 := by
  have h := (C7_spec ("Women" ++ sApos ++ "s Running Shoes") 0 (by decide)).2.1
  exact h (by decide) (fun j hj => absurd hj (by omega))

/-! ## C6: build_keywords -/

theorem kwAux_sublist :
    ∀ (ts seen : List String), (kwAux ts seen).Sublist (ts.map lowerStr) := by
  intro ts
  induction ts with
  | nil => intro _; exact List.nil_sublist _
  | cons t ts ih =>
    intro seen
    rw [kwAux]
    by_cases h1 : lowerStr t ∈ STOP_WORDS ∨ (lowerStr t).length ≤ 2
    · rw [if_pos h1]
      exact List.Sublist.cons _ (ih seen)
    · rw [if_neg h1]
      by_cases h2 : lowerStr t ∈ seen
      · rw [if_pos h2]
        exact List.Sublist.cons _ (ih seen)
      · rw [if_neg h2]
        exact List.Sublist.cons₂ _ (ih _)

theorem kwAux_mem :
    ∀ (ts seen : List String) (x : String), x ∈ kwAux ts seen →
      x ∉ STOP_WORDS ∧ ¬(x.length ≤ 2) ∧ (∃ t, x = lowerStr t) ∧ x ∉ seen := by
  intro ts
  induction ts with
  | nil => intro seen x hx; exact absurd hx (List.not_mem_nil x)
  | cons t ts ih =>
    intro seen x hx
    rw [kwAux] at hx
    by_cases h1 : lowerStr t ∈ STOP_WORDS ∨ (lowerStr t).length ≤ 2
    · rw [if_pos h1] at hx
      exact ih seen x hx
    · rw [if_neg h1] at hx
      by_cases h2 : lowerStr t ∈ seen
      · rw [if_pos h2] at hx
        exact ih seen x hx
      · rw [if_neg h2] at hx
        rcases List.mem_cons.mp hx with heq | hmem
        · subst heq
          push_neg at h1
          exact ⟨h1.1, by omega, ⟨t, rfl⟩, h2⟩
        · have := ih _ x hmem
          exact ⟨this.1, this.2.1, this.2.2.1,
            fun hs => this.2.2.2 (List.mem_cons_of_mem _ hs)⟩

theorem kwAux_nodup : ∀ (ts seen : List String), (kwAux ts seen).Nodup := by
  intro ts
  induction ts with
  | nil => intro _; exact List.nodup_nil
  | cons t ts ih =>
    intro seen
    rw [kwAux]
    by_cases h1 : lowerStr t ∈ STOP_WORDS ∨ (lowerStr t).length ≤ 2
    · rw [if_pos h1]; exact ih seen
    · rw [if_neg h1]
      by_cases h2 : lowerStr t ∈ seen
      · rw [if_pos h2]; exact ih seen
      · rw [if_neg h2]
        refine List.nodup_cons.mpr ⟨?_, ih _⟩
        intro hmem
        exact (kwAux_mem ts _ _ hmem).2.2.2 (List.mem_cons_self _ _)

/-- **C6.** `build_keywords` tokenizes the concatenation of brand, title
and category on `[A-Za-z0-9']` runs and joins with `", "` at most 15
keywords: each lowercase, none in the stop-word set, none shorter than 3
characters, with no duplicates, in first-seen token order (the kept list
is a subsequence of the lowercased token stream); in particular
`build_keywords("Super Pack", "BrandX", "Tools")` excludes `"pack"` and
keeps `"brandx"`, `"super"`, `"tools"`, each once, in first-seen order. -/
theorem C6_spec (title brand category : String) :
    build_keywords title brand category =
      joinStrSep ", " ((build_keywords_list title brand category).take 15)
    ∧ ((build_keywords_list title brand category).take 15).length ≤ 15
    ∧ (∀ k ∈ (build_keywords_list title brand category).take 15,
        (∀ c ∈ k.toList, c.isUpper = false) ∧ k ∉ STOP_WORDS ∧ 3 ≤ k.length)
    ∧ ((build_keywords_list title brand category).take 15).Nodup
    ∧ ((build_keywords_list title brand category).take 15).Sublist
        ((build_keywords_tokens title brand category).map lowerStr)
    ∧ build_keywords "Super Pack" "BrandX" "Tools" = "brandx, super, tools"
    ∧ build_keywords_list "Super Pack" "BrandX" "Tools" = ["brandx", "super", "tools"] := by
  refine ⟨rfl, ?_, ?_, ?_, ?_, by decide, by decide⟩
  · rw [List.length_take]
    omega
  · intro k hk
    have hmem : k ∈ build_keywords_list title brand category := List.mem_of_mem_take hk
    have h := kwAux_mem _ _ _ hmem
    refine ⟨?_, h.1, by have := h.2.1; omega⟩
    obtain ⟨t, rfl⟩ := h.2.2.1
    intro c hc
    rw [lowerStr] at hc
    simp only [String.toList] at hc
    obtain ⟨d, _, rfl⟩ := List.mem_map.mp hc
    exact toLower_not_upper d
  · exact List.Nodup.sublist (List.take_sublist _ _) (kwAux_nodup _ _)
  · exact (List.take_sublist _ _).trans (kwAux_sublist _ _)

/-- Witness for C6: the keyword bound at a concrete input (the bound
conjunct carries a membership hypothesis). -/
theorem C6_witness :
    ((build_keywords_list "Super Pack" "BrandX" "Tools").take 15).length ≤ 15
    ∧ ("brandx" ∉ STOP_WORDS ∧ 3 ≤ ("brandx" : String).length) := by
  have h := C6_spec "Super Pack" "BrandX" "Tools"
  have hb := h.2.2.1 "brandx" (by decide)
  exact ⟨h.2.1, hb.2.1, hb.2.2⟩

/-! ## C5: trim_to_length -/

theorem joinSep_cons_ne (sep : List Char) (a : List Char) (rest : List (List Char))
    (h : rest ≠ []) : joinSep sep (a :: rest) = a ++ sep ++ joinSep sep rest := by
  cases rest with
  | nil => exact absurd rfl h
  | cons b t => rfl

theorem joinSep_append_single (sep w : List Char) :
    ∀ l : List (List Char),
      joinSep sep (l ++ [w]) = if l = [] then w else joinSep sep l ++ sep ++ w := by
  intro l
  induction l with
  | nil => rfl
  | cons a l ih =>
    rw [if_neg (by simp)]
    rw [List.cons_append, joinSep_cons_ne sep a (l ++ [w]) (by simp)]
    by_cases hl : l = []
    · subst hl; rfl
    · rw [ih, if_neg hl, joinSep_cons_ne sep a l hl]
      simp [List.append_assoc]

theorem trimLoop_take (limit : ℕ) :
    ∀ (ws acc : List (List Char)) (total : ℕ),
      ∃ k, trimLoop limit ws acc total = acc.reverse ++ ws.take k := by
  intro ws
  induction ws with
  | nil => intro acc total; exact ⟨0, by simp [trimLoop]⟩
  | cons w ws ih =>
    intro acc total
    rw [trimLoop]
    by_cases hbr : limit - 1 < total + (if acc = [] then w.length else w.length + 1)
    · rw [if_pos hbr]
      exact ⟨0, by simp⟩
    · rw [if_neg hbr]
      obtain ⟨k, hk⟩ := ih (w :: acc) (total + (if acc = [] then w.length else w.length + 1))
      refine ⟨k + 1, ?_⟩
      rw [hk]
      simp [List.take_succ_cons]

theorem trimLoop_len (limit : ℕ) :
    ∀ (ws acc : List (List Char)) (total : ℕ),
      total = (joinSep [' '] acc.reverse).length → total ≤ limit - 1 →
      (joinSep [' '] (trimLoop limit ws acc total)).length ≤ limit - 1 := by
  intro ws
  induction ws with
  | nil =>
    intro acc total htot hle
    rw [trimLoop, ← htot]
    exact hle
  | cons w ws ih =>
    intro acc total htot hle
    rw [trimLoop]
    by_cases hbr : limit - 1 < total + (if acc = [] then w.length else w.length + 1)
    · rw [if_pos hbr, ← htot]
      exact hle
    · rw [if_neg hbr]
      refine ih (w :: acc) _ ?_ (by omega)
      rw [List.reverse_cons, joinSep_append_single]
      by_cases hacc : acc = []
      · have h0 : total = 0 := by rw [htot, hacc]; rfl
        subst hacc
        simp [h0]
      · rw [if_neg hacc, if_neg (show ¬acc.reverse = [] by simp [hacc]),
          List.length_append, List.length_append, ← htot]
        simp
        omega

/-- **C5 counterexample.** The claim quantifies over every `limit`; at
`limit = 0` the text does not fit (stripped length 19 > 0), yet the result
is the one-character string `"…"`, which exceeds the limit. -/
theorem C5_counterexample :
    0 < (pyStrip ("The quick brown fox").toList).length
    ∧ trim_to_length "The quick brown fox" 0 = "…"
    ∧ ¬((trim_to_length "The quick brown fox" 0).length ≤ 0) := by
  refine ⟨by decide, by decide, by decide⟩

/-- **C5 (amended).** For every text and every `limit ≥ 1`:
`trim_to_length` returns the whitespace-stripped text unchanged when its
stripped length is at most `limit`; otherwise it returns a string of at
most `limit` characters ending in the ellipsis marker `"…"`, whose body is
a prefix of the stripped text's word list joined by single spaces with
trailing punctuation stripped before the marker is appended. -/
theorem C5_spec (text : String) (limit : ℕ) (hlim : 1 ≤ limit) :
    ((pyStrip text.toList).length ≤ limit →
      trim_to_length text limit = (⟨pyStrip text.toList⟩ : String))
    ∧ (limit < (pyStrip text.toList).length →
        (trim_to_length text limit).length ≤ limit
        ∧ (trim_to_length text limit).toList.getLast? = some '…'
        ∧ ∃ k, trim_to_length text limit =
            (⟨rstripChars isTrailPunct
              (joinSep [' '] ((splitWS (pyStrip text.toList)).take k)) ++ ['…']⟩ : String)) := by
  constructor
  · intro h
    rw [trim_to_length, if_pos h]
  · intro h
    have hnot : ¬((pyStrip text.toList).length ≤ limit) := by omega
    have heq : trim_to_length text limit =
        (⟨rstripChars isTrailPunct
          (joinSep [' '] (trimLoop limit (splitWS (pyStrip text.toList)) [] 0)) ++
          ['…']⟩ : String) := by
      rw [trim_to_length, if_neg hnot]
    obtain ⟨k, hk⟩ := trimLoop_take limit (splitWS (pyStrip text.toList)) [] 0
    have hlen : (joinSep [' ']
        (trimLoop limit (splitWS (pyStrip text.toList)) [] 0)).length ≤ limit - 1 :=
      trimLoop_len limit _ [] 0 rfl (by omega)
    refine ⟨?_, ?_, ⟨k, ?_⟩⟩
    · rw [heq]
      show (rstripChars isTrailPunct _ ++ ['…']).length ≤ limit
      rw [List.length_append]
      have hr : (rstripChars isTrailPunct
          (joinSep [' '] (trimLoop limit (splitWS (pyStrip text.toList)) [] 0))).length ≤
          limit - 1 := by
        refine le_trans ?_ hlen
        rw [rstripChars, List.length_reverse]
        exact le_trans (List.Sublist.length_le (List.dropWhile_sublist _))
          (le_of_eq (List.length_reverse _))
      simp only [List.length_singleton]
      omega
    · rw [heq]
      show (rstripChars isTrailPunct _ ++ ['…']).getLast? = some '…'
      exact List.getLast?_concat _
    · rw [heq, hk]
      rfl

/-- Witness for C5 at the spec's example input. -/
theorem C5_witness :
    (trim_to_length "The quick brown fox" 10).length ≤ 10
    ∧ (trim_to_length "The quick brown fox" 10).toList.getLast? = some '…'
    ∧ trim_to_length "The quick brown fox" 10 = "The quick…" := by
  have h := (C5_spec "The quick brown fox" 10 (by omega)).2 (by decide)
  exact ⟨h.1, h.2.1, by decide⟩

/-! ## C1: to_exact_canvas_webp -/

theorem round_aspect_w_bounds (number aspect y : ℚ) (B : ℤ) (hB : 1 ≤ B)
    (hn : number ≤ (B : ℚ)) :
    1 ≤ round_aspect_w number aspect y ∧ round_aspect_w number aspect y ≤ B := by
  simp only [round_aspect_w]
  constructor
  · exact le_max_right _ _
  · refine max_le ?_ hB
    have hc : ⌈number⌉ ≤ B := Int.ceil_le.mpr hn
    have hf : ⌊number⌋ ≤ B := le_trans (Int.floor_le_ceil number) hc
    split_ifs <;> first | exact hf | exact hc

theorem round_aspect_h_bounds (number aspect x : ℚ) (B : ℤ) (hB : 1 ≤ B)
    (hn : number ≤ (B : ℚ)) :
    1 ≤ round_aspect_h number aspect x ∧ round_aspect_h number aspect x ≤ B := by
  simp only [round_aspect_h]
  constructor
  · exact le_max_right _ _
  · refine max_le ?_ hB
    have hc : ⌈number⌉ ≤ B := Int.ceil_le.mpr hn
    have hf : ⌊number⌋ ≤ B := le_trans (Int.floor_le_ceil number) hc
    split_ifs <;> first | exact hf | exact hc

theorem thumbnail_size_spec (w h : ℕ) (hw : 0 < w) (hh : 0 < h) :
    1 ≤ (thumbnail_size 800 800 w h).1 ∧ 1 ≤ (thumbnail_size 800 800 w h).2
    ∧ (thumbnail_size 800 800 w h).1 ≤ 800 ∧ (thumbnail_size 800 800 w h).2 ≤ 800
    ∧ (thumbnail_size 800 800 w h).1 ≤ w ∧ (thumbnail_size 800 800 w h).2 ≤ h := by
  rw [thumbnail_size]
  by_cases hfit : w ≤ 800 ∧ h ≤ 800
  · rw [if_pos hfit]
    exact ⟨hw, hh, hfit.1, hfit.2, le_refl w, le_refl h⟩
  · rw [if_neg hfit]
    have hq : (0 : ℚ) < (h : ℚ) := by exact_mod_cast hh
    have hqw : (0 : ℚ) < (w : ℚ) := by exact_mod_cast hw
    have h11 : (((800 : ℕ) : ℚ)) / (((800 : ℕ) : ℚ)) = 1 := by norm_num
    by_cases hasp : (w : ℚ) / (h : ℚ) ≤ (((800 : ℕ) : ℚ)) / (((800 : ℕ) : ℚ))
    · rw [if_pos hasp]
      rw [h11] at hasp
      have hwh : (w : ℚ) ≤ (h : ℚ) := (div_le_one hq).mp hasp
      have hwhn : w ≤ h := by exact_mod_cast hwh
      have h8h : 800 < h := by
        rcases not_and_or.mp hfit with h1 | h1 <;> omega
      have h8q : (800 : ℚ) ≤ (h : ℚ) := by exact_mod_cast le_of_lt h8h
      have hn800 : ((800 : ℕ) : ℚ) * ((w : ℚ) / (h : ℚ)) ≤ (((800 : ℤ)) : ℚ) := by
        push_cast
        calc (800 : ℚ) * ((w : ℚ) / (h : ℚ)) ≤ 800 * 1 := by
              apply mul_le_mul_of_nonneg_left ((div_le_one hq).mpr hwh) (by norm_num)
          _ = 800 := by norm_num
      have hnw : ((800 : ℕ) : ℚ) * ((w : ℚ) / (h : ℚ)) ≤ (((w : ℤ)) : ℚ) := by
        push_cast
        rw [← mul_div_assoc, div_le_iff₀ hq]
        calc (800 : ℚ) * (w : ℚ) ≤ (h : ℚ) * (w : ℚ) :=
              mul_le_mul_of_nonneg_right h8q (le_of_lt hqw)
          _ = (w : ℚ) * (h : ℚ) := mul_comm _ _
      have hb1 := round_aspect_w_bounds (((800 : ℕ) : ℚ) * ((w : ℚ) / (h : ℚ)))
        ((w : ℚ) / (h : ℚ)) (((800 : ℕ) : ℚ)) 800 (by norm_num) hn800
      have hb2 := round_aspect_w_bounds (((800 : ℕ) : ℚ) * ((w : ℚ) / (h : ℚ)))
        ((w : ℚ) / (h : ℚ)) (((800 : ℕ) : ℚ)) (w : ℤ) (by exact_mod_cast hw) hnw
      obtain ⟨hr1, hr2⟩ := hb1
      obtain ⟨_, hr3⟩ := hb2
      refine ⟨?_, by norm_num, ?_, by norm_num, ?_, le_of_lt h8h⟩ <;> omega
    · rw [if_neg hasp]
      rw [h11] at hasp
      push_neg at hasp
      have hhw : (h : ℚ) < (w : ℚ) := by
        by_contra hcon
        push_neg at hcon
        exact absurd ((div_le_one hq).mpr (le_of_lt (lt_of_lt_of_le hqw hcon))) (by
          exact absurd ((div_le_one hq).mpr hcon) (not_le.mpr hasp))
      have hhwn : h < w := by exact_mod_cast hhw
      have h8w : 800 < w := by
        rcases not_and_or.mp hfit with h1 | h1 <;> omega
      have h8q : (800 : ℚ) ≤ (w : ℚ) := by exact_mod_cast le_of_lt h8w
      have hdiv : ((800 : ℕ) : ℚ) / ((w : ℚ) / (h : ℚ)) = 800 * (h : ℚ) / (w : ℚ) := by
        rw [div_div_eq_mul_div]
        push_cast
        ring_nf
      have hn800 : ((800 : ℕ) : ℚ) / ((w : ℚ) / (h : ℚ)) ≤ (((800 : ℤ)) : ℚ) := by
        rw [hdiv]
        push_cast
        rw [div_le_iff₀ hqw]
        calc (800 : ℚ) * (h : ℚ) ≤ 800 * (w : ℚ) :=
              mul_le_mul_of_nonneg_left (le_of_lt hhw) (by norm_num)
          _ = 800 * (w : ℚ) := rfl
      have hnh : ((800 : ℕ) : ℚ) / ((w : ℚ) / (h : ℚ)) ≤ (((h : ℤ)) : ℚ) := by
        rw [hdiv]
        push_cast
        rw [div_le_iff₀ hqw]
        calc (800 : ℚ) * (h : ℚ) ≤ (w : ℚ) * (h : ℚ) :=
              mul_le_mul_of_nonneg_right h8q (le_of_lt hq)
          _ = (h : ℚ) * (w : ℚ) := mul_comm _ _
      have hb1 := round_aspect_h_bounds (((800 : ℕ) : ℚ) / ((w : ℚ) / (h : ℚ)))
        ((w : ℚ) / (h : ℚ)) (((800 : ℕ) : ℚ)) 800 (by norm_num) hn800
      have hb2 := round_aspect_h_bounds (((800 : ℕ) : ℚ) / ((w : ℚ) / (h : ℚ)))
        ((w : ℚ) / (h : ℚ)) (((800 : ℕ) : ℚ)) (h : ℤ) (by exact_mod_cast hh) hnh
      obtain ⟨hr1, hr2⟩ := hb1
      obtain ⟨_, hr3⟩ := hb2
      refine ⟨by norm_num, ?_, by norm_num, ?_, le_of_lt h8w, ?_⟩ <;> omega

/-- **C1.** For every decodable input image (any dimensions `w × h` with
`w, h ≥ 1`), `to_exact_canvas_webp` with the default settings saves an
image of exactly `800 × 800` pixels (the white canvas), onto which the
source is pasted scaled to fit within the canvas (both scaled dimensions
between 1 and 800), never upscaled beyond its original resolution (scaled
dimensions at most `w` and `h`), centred with integer-divided non-negative
offsets; an input that is already exactly canvas-sized and square is
pasted unscaled at offset `(0, 0)`. -/
theorem C1_spec (w h : ℕ) (hw : 0 < w) (hh : 0 < h) :
    (to_exact_canvas_webp w h).canvas_w = 800
    ∧ (to_exact_canvas_webp w h).canvas_h = 800
    ∧ 1 ≤ (to_exact_canvas_webp w h).paste_w
    ∧ 1 ≤ (to_exact_canvas_webp w h).paste_h
    ∧ (to_exact_canvas_webp w h).paste_w ≤ 800
    ∧ (to_exact_canvas_webp w h).paste_h ≤ 800
    ∧ (to_exact_canvas_webp w h).paste_w ≤ w
    ∧ (to_exact_canvas_webp w h).paste_h ≤ h
    ∧ (to_exact_canvas_webp w h).off_x
        = (800 - ((to_exact_canvas_webp w h).paste_w : ℤ)) / 2
    ∧ (to_exact_canvas_webp w h).off_y
        = (800 - ((to_exact_canvas_webp w h).paste_h : ℤ)) / 2
    ∧ 0 ≤ (to_exact_canvas_webp w h).off_x
    ∧ 0 ≤ (to_exact_canvas_webp w h).off_y
    ∧ (w = 800 → h = 800 →
        (to_exact_canvas_webp w h).paste_w = 800
        ∧ (to_exact_canvas_webp w h).paste_h = 800
        ∧ (to_exact_canvas_webp w h).off_x = 0
        ∧ (to_exact_canvas_webp w h).off_y = 0) := by
  have ht := thumbnail_size_spec w h hw hh
  refine ⟨rfl, rfl, ht.1, ht.2.1, ht.2.2.1, ht.2.2.2.1, ht.2.2.2.2.1, ht.2.2.2.2.2,
    rfl, rfl, ?_, ?_, ?_⟩
  · have h5 : (to_exact_canvas_webp w h).paste_w ≤ 800 := ht.2.2.1
    have he : (to_exact_canvas_webp w h).off_x
        = (800 - ((to_exact_canvas_webp w h).paste_w : ℤ)) / 2 := rfl
    rw [he]
    omega
  · have h5 : (to_exact_canvas_webp w h).paste_h ≤ 800 := ht.2.2.2.1
    have he : (to_exact_canvas_webp w h).off_y
        = (800 - ((to_exact_canvas_webp w h).paste_h : ℤ)) / 2 := rfl
    rw [he]
    omega
  · intro hw8 hh8
    subst hw8
    subst hh8
    exact ⟨rfl, rfl, rfl, rfl⟩

/-- Witness for C1 at the canvas-sized square input `800 × 800`. -/
theorem C1_witness :
    (to_exact_canvas_webp 800 800).canvas_w = 800
    ∧ (to_exact_canvas_webp 800 800).paste_w = 800
    ∧ (to_exact_canvas_webp 800 800).off_x = 0 := by
  have h := C1_spec 800 800 (by decide) (by decide)
  have hc := h.2.2.2.2.2.2.2.2.2.2.2.2 rfl rfl
  exact ⟨h.1, hc.1, hc.2.2.1⟩

/-! ## C2: short_title_slug — membership and shape lemmas -/

theorem mem_rstripChars (p : Char → Bool) (l : List Char) (c : Char)
    (h : c ∈ rstripChars p l) : c ∈ l := by
  rw [rstripChars, List.mem_reverse] at h
  exact List.mem_reverse.mp ((List.dropWhile_sublist p).subset h)

theorem mem_stripChars (p : Char → Bool) (l : List Char) (c : Char)
    (h : c ∈ stripChars p l) : c ∈ l := by
  have h2 : c ∈ l.dropWhile p := mem_rstripChars p (l.dropWhile p) c h
  exact (List.dropWhile_sublist p).subset h2

theorem mem_collapseWSAux :
    ∀ (l : List Char) (b : Bool) (c : Char), c ∈ collapseWSAux b l →
      c = ' ' ∨ (c ∈ l ∧ c.isWhitespace = false) := by
  intro l
  induction l with
  | nil => intro b c h; exact absurd h (List.not_mem_nil c)
  | cons a t ih =>
    intro b c h
    rw [collapseWSAux] at h
    by_cases ha : a.isWhitespace = true
    · rw [if_pos ha] at h
      cases b with
      | true =>
        rw [if_pos rfl] at h
        rcases ih true c h with h1 | ⟨h2, h3⟩
        · exact Or.inl h1
        · exact Or.inr ⟨List.mem_cons_of_mem _ h2, h3⟩
      | false =>
        rw [if_neg Bool.false_ne_true] at h
        rcases List.mem_cons.mp h with rfl | hm
        · exact Or.inl rfl
        · rcases ih true c hm with h1 | ⟨h2, h3⟩
          · exact Or.inl h1
          · exact Or.inr ⟨List.mem_cons_of_mem _ h2, h3⟩
    · rw [if_neg ha] at h
      have ha' : a.isWhitespace = false := Bool.eq_false_iff.mpr ha
      rcases List.mem_cons.mp h with rfl | hm
      · exact Or.inr ⟨List.mem_cons_self _ _, ha'⟩
      · rcases ih false c hm with h1 | ⟨h2, h3⟩
        · exact Or.inl h1
        · exact Or.inr ⟨List.mem_cons_of_mem _ h2, h3⟩

theorem splitOnChar_ne_nil (sep : Char) : ∀ l, splitOnChar sep l ≠ [] := by
  intro l
  induction l with
  | nil => simp [splitOnChar]
  | cons c t ih =>
    cases h : splitOnChar sep t with
    | nil => exact absurd h ih
    | cons w ws =>
      rw [splitOnChar, h]
      show (if c = sep then [] :: w :: ws else (c :: w) :: ws) ≠ []
      by_cases hc : c = sep
      · rw [if_pos hc]; exact List.cons_ne_nil _ _
      · rw [if_neg hc]; exact List.cons_ne_nil _ _

theorem mem_splitOnChar (sep : Char) :
    ∀ (l w : List Char), w ∈ splitOnChar sep l → ∀ c ∈ w, c ∈ l ∧ c ≠ sep := by
  intro l
  induction l with
  | nil =>
    intro w hw c hc
    rw [splitOnChar] at hw
    simp only [List.mem_singleton] at hw
    subst hw
    exact absurd hc (List.not_mem_nil c)
  | cons a t ih =>
    intro w hw c hc
    cases h : splitOnChar sep t with
    | nil => exact absurd h (splitOnChar_ne_nil sep t)
    | cons v vs =>
      rw [splitOnChar, h] at hw
      have hw2 : w ∈ (if a = sep then [] :: v :: vs else (a :: v) :: vs) := hw
      clear hw
      rename' hw2 => hw
      by_cases ha : a = sep
      · rw [if_pos ha] at hw
        rcases List.mem_cons.mp hw with rfl | hw2
        · exact absurd hc (List.not_mem_nil c)
        · have hmem : w ∈ splitOnChar sep t := by rw [h]; exact hw2
          have hr := ih w hmem c hc
          exact ⟨List.mem_cons_of_mem _ hr.1, hr.2⟩
      · rw [if_neg ha] at hw
        rcases List.mem_cons.mp hw with rfl | hw2
        · rcases List.mem_cons.mp hc with rfl | hcv
          · exact ⟨List.mem_cons_self _ _, ha⟩
          · have hv : v ∈ splitOnChar sep t := by rw [h]; exact List.mem_cons_self _ _
            have hr := ih v hv c hcv
            exact ⟨List.mem_cons_of_mem _ hr.1, hr.2⟩
        · have hmem : w ∈ splitOnChar sep t := by rw [h]; exact List.mem_cons_of_mem _ hw2
          have hr := ih w hmem c hc
          exact ⟨List.mem_cons_of_mem _ hr.1, hr.2⟩

theorem mem_joinSep (sep : List Char) :
    ∀ (ws : List (List Char)) (c : Char), c ∈ joinSep sep ws →
      c ∈ sep ∨ ∃ w ∈ ws, c ∈ w := by
  intro ws
  induction ws with
  | nil => intro c h; exact absurd h (List.not_mem_nil c)
  | cons w ws ih =>
    intro c h
    cases ws with
    | nil => exact Or.inr ⟨w, List.mem_cons_self _ _, h⟩
    | cons v vs =>
      rw [joinSep_cons_ne sep w (v :: vs) (List.cons_ne_nil _ _)] at h
      rcases List.mem_append.mp h with h1 | h2
      · rcases List.mem_append.mp h1 with h3 | h4
        · exact Or.inr ⟨w, List.mem_cons_self _ _, h3⟩
        · exact Or.inl h4
      · rcases ih c h2 with h3 | ⟨u, hu, hcu⟩
        · exact Or.inl h3
        · exact Or.inr ⟨u, List.mem_cons_of_mem _ hu, hcu⟩

theorem mem_collapseDashAux :
    ∀ (l : List Char) (b : Bool) (c : Char), c ∈ collapseDashAux b l → c ∈ l := by
  intro l
  induction l with
  | nil => intro b c h; exact absurd h (List.not_mem_nil c)
  | cons a t ih =>
    intro b c h
    rw [collapseDashAux] at h
    by_cases ha : a = '-'
    · rw [if_pos ha] at h
      cases b with
      | true =>
        rw [if_pos rfl] at h
        exact List.mem_cons_of_mem _ (ih true c h)
      | false =>
        rw [if_neg Bool.false_ne_true] at h
        rcases List.mem_cons.mp h with rfl | h2
        · rw [ha]; exact List.mem_cons_self _ _
        · exact List.mem_cons_of_mem _ (ih true c h2)
    · rw [if_neg ha] at h
      rcases List.mem_cons.mp h with rfl | h2
      · exact List.mem_cons_self _ _
      · exact List.mem_cons_of_mem _ (ih false c h2)

theorem collapseDash_chain :
    ∀ (l : List Char) (b : Bool),
      List.Chain' (fun x y => ¬(x = '-' ∧ y = '-')) (collapseDashAux b l)
      ∧ (b = true → (collapseDashAux b l).head? ≠ some '-') := by
  intro l
  induction l with
  | nil =>
    intro b
    exact ⟨List.chain'_nil, fun _ => by rw [collapseDashAux]; simp⟩
  | cons a t ih =>
    intro b
    rw [collapseDashAux]
    by_cases ha : a = '-'
    · rw [if_pos ha]
      cases b with
      | true =>
        rw [if_pos rfl]
        exact ⟨(ih true).1, fun _ => (ih true).2 rfl⟩
      | false =>
        rw [if_neg Bool.false_ne_true]
        constructor
        · rw [List.chain'_cons']
          refine ⟨?_, (ih true).1⟩
          intro y hy hcon
          apply (ih true).2 rfl
          rw [← hcon.2]
          exact Option.mem_def.mp hy
        · intro hb
          exact absurd hb Bool.false_ne_true
    · rw [if_neg ha]
      constructor
      · rw [List.chain'_cons']
        refine ⟨?_, (ih false).1⟩
        intro y _ hcon
        exact ha hcon.1
      · intro _ hcon
        rw [List.head?_cons] at hcon
        exact ha (Option.some.inj hcon)

theorem chain'_dropWhile {R : Char → Char → Prop} (p : Char → Bool) :
    ∀ l : List Char, List.Chain' R l → List.Chain' R (l.dropWhile p) := by
  intro l
  induction l with
  | nil => intro h; exact h
  | cons a t ih =>
    intro h
    rw [List.dropWhile_cons]
    by_cases hp : p a = true
    · rw [if_pos hp]
      exact ih h.tail
    · rw [if_neg hp]
      exact h

theorem chain'_reverse_dash (l : List Char)
    (h : List.Chain' (fun x y => ¬(x = '-' ∧ y = '-')) l) :
    List.Chain' (fun x y => ¬(x = '-' ∧ y = '-')) l.reverse := by
  rw [List.chain'_reverse]
  exact h.imp (fun a b hab hc => hab ⟨hc.2, hc.1⟩)

theorem head?_take_some (n : ℕ) (l : List Char) (c : Char)
    (h : (l.take n).head? = some c) : l.head? = some c := by
  cases n with
  | zero => rw [List.take_zero] at h; simp at h
  | succ m =>
    cases l with
    | nil => simp at h
    | cons a t =>
      rw [List.take_succ_cons, List.head?_cons] at h
      rw [List.head?_cons]
      exact h

theorem chain'_take {R : Char → Char → Prop} :
    ∀ (l : List Char) (n : ℕ), List.Chain' R l → List.Chain' R (l.take n) := by
  intro l
  induction l with
  | nil => intro n h; rw [List.take_nil]; exact h
  | cons a t ih =>
    intro n h
    cases n with
    | zero => rw [List.take_zero]; exact List.chain'_nil
    | succ m =>
      rw [List.take_succ_cons, List.chain'_cons']
      rw [List.chain'_cons'] at h
      refine ⟨?_, ih m h.2⟩
      intro y hy
      exact h.1 y (head?_take_some m t y (Option.mem_def.mp hy))

theorem head?_dropWhile_not (p : Char → Bool) :
    ∀ (l : List Char) (c : Char), (l.dropWhile p).head? = some c → p c = false := by
  intro l
  induction l with
  | nil => intro c h; simp [List.dropWhile] at h
  | cons a t ih =>
    intro c h
    rw [List.dropWhile_cons] at h
    by_cases hp : p a = true
    · rw [if_pos hp] at h
      exact ih c h
    · rw [if_neg hp] at h
      rw [List.head?_cons] at h
      cases Option.some.inj h
      exact Bool.eq_false_iff.mpr hp

theorem rstrip_decomp (p : Char → Bool) (l : List Char) :
    ∃ u, l = rstripChars p l ++ u ∧ ∀ c ∈ u, p c = true := by
  refine ⟨(l.reverse.takeWhile p).reverse, ?_, ?_⟩
  · rw [rstripChars, ← List.reverse_append, List.takeWhile_append_dropWhile,
      List.reverse_reverse]
  · intro c hc
    rw [List.mem_reverse] at hc
    exact List.mem_takeWhile_imp hc

theorem getLast?_rstrip_not (p : Char → Bool) (l : List Char) (c : Char)
    (h : (rstripChars p l).getLast? = some c) : p c = false := by
  rw [rstripChars, List.getLast?_reverse] at h
  exact head?_dropWhile_not p _ c h

theorem head?_rstrip_some (p : Char → Bool) (l : List Char) (c : Char)
    (h : (rstripChars p l).head? = some c) : l.head? = some c := by
  obtain ⟨u, hu, _⟩ := rstrip_decomp p l
  cases hr : rstripChars p l with
  | nil => rw [hr] at h; simp at h
  | cons d rest =>
    rw [hr, List.head?_cons] at h
    rw [hu, hr, List.cons_append, List.head?_cons]
    exact h

theorem head?_stripChars_not (p : Char → Bool) (l : List Char) (c : Char)
    (h : (stripChars p l).head? = some c) : p c = false := by
  have h2 : (l.dropWhile p).head? = some c :=
    head?_rstrip_some p (l.dropWhile p) c h
  exact head?_dropWhile_not p l c h2

theorem toLower_slugChar (d : Char) (hd : (isWordChar d || d = '-') = true) :
    (Char.toLower d).isLower = true ∨ (Char.toLower d).isDigit = true
    ∨ Char.toLower d = '_' ∨ Char.toLower d = '-' := by
  simp only [isWordChar, Char.isAlphanum, Char.isAlpha, Bool.or_eq_true,
    decide_eq_true_eq] at hd
  rcases hd with (((hup | hlo) | hdig) | hu) | hdash
  · exact Or.inl (toLower_isLower_of_isUpper d hup)
  · rw [isLower_iff] at hlo
    rw [toLower_eq_self d (by omega)]
    exact Or.inl ((isLower_iff d).mpr (by omega))
  · rw [isDigit_iff] at hdig
    rw [toLower_eq_self d (by omega)]
    exact Or.inr (Or.inl ((isDigit_iff d).mpr (by omega)))
  · subst hu
    exact Or.inr (Or.inr (Or.inl (by decide)))
  · subst hdash
    exact Or.inr (Or.inr (Or.inr (by decide)))

theorem slug_join_chars (mw : ℕ) (title : String) :
    ∀ c ∈ (joinSep ['-'] (slug_words mw title)).map Char.toLower,
      c.isLower = true ∨ c.isDigit = true ∨ c = '_' ∨ c = '-' := by
  intro c hc
  obtain ⟨d, hd, rfl⟩ := List.mem_map.mp hc
  rcases mem_joinSep ['-'] _ d hd with hsep | ⟨w, hw, hdw⟩
  · have hd' : d = '-' := by simpa using hsep
    subst hd'
    exact Or.inr (Or.inr (Or.inr (by decide)))
  · have hw' : w ∈ splitOnChar ' '
        (pyStrip (collapseWSAux false
          ((pyStrip title.toList).filter
            (fun c => isWordChar c || c.isWhitespace || c = '-')))) :=
      List.mem_of_mem_take (by exact hw)
    have hd3 := mem_splitOnChar ' ' _ w hw' d hdw
    have hd4 : d ∈ collapseWSAux false
        ((pyStrip title.toList).filter
          (fun c => isWordChar c || c.isWhitespace || c = '-')) :=
      mem_stripChars _ _ d hd3.1
    rcases mem_collapseWSAux _ false d hd4 with hsp | ⟨hd5, hnw⟩
    · exact absurd hsp hd3.2
    · have hf := (List.mem_filter.mp hd5).2
      rw [Bool.or_eq_true, Bool.or_eq_true] at hf
      have hcls : (isWordChar d || d = '-') = true := by
        rw [Bool.or_eq_true]
        rcases hf with (h7 | h8) | h9
        · exact Or.inl h7
        · rw [h8] at hnw
          exact absurd hnw (by simp)
        · exact Or.inr h9
      exact toLower_slugChar d hcls

theorem slug_mem_only (s1 : List Char) (m : ℕ)
    (hchars : ∀ c ∈ s1,
      c.isLower = true ∨ c.isDigit = true ∨ c = '_' ∨ c = '-') :
    ∀ c ∈ rstripChars (fun c => c = '-')
        ((stripChars (fun c => c = '-') (collapseDashAux false s1)).take m),
      c.isLower = true ∨ c.isDigit = true ∨ c = '_' ∨ c = '-' := by
  intro c hc
  have h4 := mem_rstripChars _ _ c hc
  have h3 := List.mem_of_mem_take h4
  have h2 := mem_stripChars _ _ c h3
  exact hchars c (mem_collapseDashAux s1 false c h2)

theorem slug_len_only (s1 : List Char) (m : ℕ) :
    (rstripChars (fun c => c = '-')
      ((stripChars (fun c => c = '-') (collapseDashAux false s1)).take m)).length ≤ m := by
  rw [rstripChars, List.length_reverse]
  refine le_trans (List.Sublist.length_le (List.dropWhile_sublist _)) ?_
  rw [List.length_reverse, List.length_take]
  omega

theorem slug_chain_only (s1 : List Char) (m : ℕ) :
    List.Chain' (fun x y => ¬(x = '-' ∧ y = '-'))
      (rstripChars (fun c => c = '-')
        ((stripChars (fun c => c = '-') (collapseDashAux false s1)).take m)) := by
  have h2 := (collapseDash_chain s1 false).1
  have h3 : List.Chain' (fun x y => ¬(x = '-' ∧ y = '-'))
      (stripChars (fun c => c = '-') (collapseDashAux false s1)) :=
    chain'_reverse_dash _
      (chain'_dropWhile _ _ (chain'_reverse_dash _ (chain'_dropWhile _ _ h2)))
  exact chain'_reverse_dash _
    (chain'_dropWhile _ _ (chain'_reverse_dash _ (chain'_take _ m h3)))

theorem slug_head_only (s1 : List Char) (m : ℕ) :
    (rstripChars (fun c => c = '-')
      ((stripChars (fun c => c = '-') (collapseDashAux false s1)).take m)).head?
      ≠ some '-' := by
  intro hcon
  have h4 := head?_rstrip_some _ _ _ hcon
  have h3 := head?_take_some m _ _ h4
  have := head?_stripChars_not _ _ _ h3
  simp at this

theorem slug_last_only (s1 : List Char) (m : ℕ) :
    (rstripChars (fun c => c = '-')
      ((stripChars (fun c => c = '-') (collapseDashAux false s1)).take m)).getLast?
      ≠ some '-' := by
  intro hcon
  have := getLast?_rstrip_not _ _ _ hcon
  simp at this

/-- **C2 counterexample.** The claim says the slug matches `[a-z0-9-]+`;
Python `\w` keeps the underscore, so `short_title_slug("_") = "_"`, which
contains a character outside `[a-z0-9-]`. -/
theorem C2_counterexample :
    short_title_slug "_" = "_"
    ∧ '_' ∈ (short_title_slug "_").toList
    ∧ ('_'.isLower = false ∧ '_'.isDigit = false ∧ '_' ≠ '-') := by
  refine ⟨by decide, by decide, by decide, by decide, by decide⟩

theorem mk_toList (l : List Char) : (⟨l⟩ : String).toList = l := rfl

theorem slug_core_toList (title : String) (h5 : ¬slug_core 6 48 title = []) :
    (short_title_slug title).toList = slug_core 6 48 title := by
  rw [short_title_slug, short_title_slug_p, if_neg h5]
  exact mk_toList _

theorem slug_core_eq (title : String) :
    slug_core 6 48 title =
      rstripChars (fun c => c = '-')
        ((stripChars (fun c => c = '-')
          (collapseDashAux false
            ((joinSep ['-'] (slug_words 6 title)).map Char.toLower))).take 48) := rfl

theorem slug_fallback_of_core_nil (title : String) (h5 : slug_core 6 48 title = []) :
    short_title_slug title = "product" := by
  rw [short_title_slug, short_title_slug_p, if_pos h5]

theorem slug_witness_mem : 'b' ∈ (short_title_slug "Blue Cotton T-Shirt!").toList := by
  decide

theorem slug_fallback_empty : short_title_slug "" = "product" := by decide

theorem slug_fallback_bang : short_title_slug "!!!" = "product" := by decide

/- The slug pipeline stages are made irreducible for the remaining
structural proofs: their statements only ever need the defining equations
proved above, and keeping the elaborator from unfolding the deep
recursion tower keeps unification linear. -/
attribute [irreducible] slug_words slug_core short_title_slug_p short_title_slug

theorem slug_e2 (title : String) (h5 : ¬slug_core 6 48 title = []) :
    (short_title_slug title).toList =
      rstripChars (fun c => c = '-')
        ((stripChars (fun c => c = '-')
          (collapseDashAux false
            ((joinSep ['-'] (slug_words 6 title)).map Char.toLower))).take 48) :=
  (slug_core_toList title h5).trans (slug_core_eq title)

theorem slug_spec_len (title : String) (h5 : ¬slug_core 6 48 title = []) :
    (short_title_slug title).toList.length ≤ 48 := by
  rw [slug_e2 title h5]
  exact slug_len_only _ 48

theorem slug_spec_mem (title : String) (h5 : ¬slug_core 6 48 title = []) :
    ∀ c ∈ (short_title_slug title).toList,
      c.isLower = true ∨ c.isDigit = true ∨ c = '_' ∨ c = '-' := by
  rw [slug_e2 title h5]
  exact slug_mem_only _ 48 (slug_join_chars 6 title)

theorem slug_spec_chain (title : String) (h5 : ¬slug_core 6 48 title = []) :
    List.Chain' (fun x y => ¬(x = '-' ∧ y = '-')) (short_title_slug title).toList := by
  rw [slug_e2 title h5]
  exact slug_chain_only _ 48

theorem slug_spec_head (title : String) (h5 : ¬slug_core 6 48 title = []) :
    (short_title_slug title).toList.head? ≠ some '-' := by
  rw [slug_e2 title h5]
  exact slug_head_only _ 48

theorem slug_spec_last (title : String) (h5 : ¬slug_core 6 48 title = []) :
    (short_title_slug title).toList.getLast? ≠ some '-' := by
  rw [slug_e2 title h5]
  exact slug_last_only _ 48

set_option maxHeartbeats 1600000 in
/-- **C2 (amended).** For every title over the ASCII domain on which the
model's character classes are exactly CPython's (`asciiModelChar`: code
points below 128, without the control whitespace U+000B, U+000C,
U+001C–U+001F), `short_title_slug` with default parameters (`max_words=6`,
`max_len=48`) returns a non-empty string of length at most 48 over
lowercase letters, digits, underscores and dashes (pattern `[a-z0-9_-]+`),
with no two consecutive dashes and neither beginning nor ending with a
dash; when the cleaning steps leave nothing, the literal fallback
`"product"` is returned.  The domain restriction is forced by the code:
CPython's `\w` also keeps non-ASCII word characters, which `.lower()`
maps outside `[a-z0-9_-]` (e.g. `short_title_slug("Über Cool") =
"über-cool"`). -/
theorem C2_spec (title : String) (_hascii : title.toList.all asciiModelChar = true) :
    (short_title_slug title).toList ≠ []
    ∧ (short_title_slug title).toList.length ≤ 48
    ∧ (∀ c ∈ (short_title_slug title).toList,
        c.isLower = true ∨ c.isDigit = true ∨ c = '_' ∨ c = '-')
    ∧ List.Chain' (fun x y => ¬(x = '-' ∧ y = '-')) (short_title_slug title).toList
    ∧ (short_title_slug title).toList.head? ≠ some '-'
    ∧ (short_title_slug title).toList.getLast? ≠ some '-'
    ∧ short_title_slug "" = "product"
    ∧ short_title_slug "!!!" = "product" := by
  by_cases h5 : slug_core 6 48 title = []
  · rw [slug_fallback_of_core_nil title h5]
    refine ⟨by decide, by decide, by decide, ?_, by decide, by decide,
      slug_fallback_empty, slug_fallback_bang⟩
    rw [show ("product".toList : List Char) = ['p', 'r', 'o', 'd', 'u', 'c', 't'] from rfl]
    repeat refine List.Chain'.cons (by decide) ?_
    exact List.chain'_singleton _
  · refine ⟨?_, slug_spec_len title h5, slug_spec_mem title h5, slug_spec_chain title h5,
      slug_spec_head title h5, slug_spec_last title h5, slug_fallback_empty,
      slug_fallback_bang⟩
    intro hh
    exact h5 ((slug_core_toList title h5).symm.trans hh)

/-- Witness for C2: the slug of a concrete ASCII title is non-empty and
its first character is in the amended class. -/
theorem C2_witness :
    (short_title_slug "Blue Cotton T-Shirt!").toList ≠ []
    ∧ ('b'.isLower = true ∨ 'b'.isDigit = true ∨ 'b' = '_' ∨ 'b' = '-') := by
  have h := C2_spec "Blue Cotton T-Shirt!" (by decide)
  exact ⟨h.1, h.2.2.1 'b' slug_witness_mem⟩

end FBA
